import Mathlib

/-!
Verification development for the protocol-schema compiler
(`utils/generate_channels.js`) and the user-agent helper
(`packages/playwright-core/src/common/userAgent.ts`).

The generator is embedded shallowly: the YAML document is represented as an
ordered association list of entities, the recursive type walk is
a pair of mutually recursive functions, and the imperative accumulation into
`channels_ts` / `validator_ts` / tracing arrays is explicit list building.
Recursion through mixin splices is unbounded in the JS source (it is limited
only by the call stack), so every recursive function below carries a `fuel`
argument that is consumed at each recursive step; `GenError.fuelExhausted`
plays the role of the stack overflow.  All functions are structurally
recursive and evaluate inside the kernel.

Validator expressions are kept as an abstract syntax tree (`SchemeExpr`)
together with a printer that reproduces the exact text the generator
concatenates; the JS builds the strings directly.
-/

namespace GC

/-- The single-quote character (the generator quotes names with it). -/
def sq : String := String.singleton (Char.ofNat 39)

/-- Wrap a string in single quotes, as the generated code does. -/
def q (s : String) : String := sq ++ s ++ sq

/-- `String.endsWith`, computed on the character list. -/
def strEndsWith (s suffix : String) : Bool := suffix.data.isSuffixOf s.data

/-- `String.startsWith`, computed on the character list. -/
def strStartsWith (s pre : String) : Bool := pre.data.isPrefixOf s.data

/-- `type.substring(0, type.length - 1)`: drop the trailing character. -/
def strDropLast (s : String) : String := String.mk s.data.dropLast

/-- Split a character list at every occurrence of `c` (JS `String.split`). -/
def splitChar (c : Char) : List Char → List (List Char)
  | [] => [[]]
  | x :: xs =>
    match splitChar c xs with
    | [] => [[]]
    | h :: t => if x == c then [] :: h :: t else (x :: h) :: t

/-- JS `s.split(c)` for a single-character separator. -/
def splitOnChar (c : Char) (s : String) : List String :=
  (splitChar c s.data).map String.mk

/-- The newline character. -/
def nl : Char := Char.ofNat 10

/-- `titleCase` from the source: uppercase the first character.  (On the empty
string the JS would crash on `undefined.toUpperCase()`; names coming from a
parsed document are never empty, and we return `""` there.) -/
def titleCase (name : String) : String :=
  match name.data with
  | [] => ""
  | c :: cs => String.mk (c.toUpper :: cs)

/-- JS `Map.get`: when the association list was built by repeated `set`, the
last binding for a key wins. -/
def mget {α : Type} (l : List (String × α)) (k : String) : Option α :=
  (l.reverse.find? (fun kv => kv.1 == k)).map (fun kv => kv.2)

/-- Remove later duplicates, keeping the first occurrence of each element. -/
def dedupKeys : List String → List String
  | [] => []
  | k :: rest => k :: (dedupKeys rest).filter (fun x => !(x == k))

/-- JS `Map.keys()`: iteration order is the order of first insertion. -/
def mapKeys {α : Type} (l : List (String × α)) : List String :=
  dedupKeys (l.map (fun kv => kv.1))

/-- JS `Map.set`: overwrite in place when the key is present, else append. -/
def msetJS {α : Type} (l : List (String × α)) (k : String) (v : α) :
    List (String × α) :=
  if l.any (fun kv => kv.1 == k) then
    l.map (fun kv => if kv.1 == k then (k, v) else kv)
  else l ++ [(k, v)]

/-- A type expression of the schema document, as `inlineType` probes it: either
a bare string token, or a node whose `type` field starts with `array`, `enum`
or `object` (the tag string is kept verbatim, since the source reads the
trailing `?` off it).  `badT` stands for every other shape, on which the
`raise(type)` in the source fires. -/
inductive TypeExpr where
  | str (s : String)
  | arrayT (tag : String) (items : TypeExpr)
  | enumT (tag : String) (literals : List String)
  | objectT (tag : String) (props : List (String × TypeExpr))
  | badT
  deriving Repr

/-- An ordered property list: `Object.entries` of a YAML mapping.  An entry
whose name starts with `$mixin` is a mixin splice and its value is the mixin
name. -/
abbrev PropList := List (String × TypeExpr)

/-- A validator expression of `validator.ts`, as an AST.  The generator builds
these as strings; `printScheme` below reproduces that text exactly. -/
inductive SchemeExpr where
  | tBinary
  | tAny
  | tString
  | tBoolean
  | tNumber
  | tUndefined
  | tChannel (name : String)
  | tType (name : String)
  | tArray (items : SchemeExpr)
  | tEnum (literals : List String)
  | tObject (props : List (String × SchemeExpr))
  | tOptional (inner : SchemeExpr)
  deriving Repr

/-- `t${titleCase(type)}` for the four primitive tokens. -/
def primScheme (t : String) : SchemeExpr :=
  if t = "string" then .tString
  else if t = "boolean" then .tBoolean
  else if t = "number" then .tNumber
  else .tUndefined

/-- Failure modes of a generator run (§7 of the spec).  `invalidItem` is the
`raise` of the source (an unrecognized shape); `unknownMixin` is the `TypeError`
that `mixins.get(value).properties` throws when the mixin is absent;
`fuelExhausted` models unbounded recursion (stack overflow);
`missingTarget` is `fs.readFileSync` throwing in `writeFile`. -/
inductive GenError where
  | invalidItem
  | unknownMixin (name : String)
  | fuelExhausted
  | missingTarget
  deriving Repr, DecidableEq

/-- The global registries built by the first pass: the channel names and the mixin
definitions, both read by `inlineType`/`properties`. -/
structure Ctx where
  channels : List String
  mixins : List (String × PropList)
  deriving Repr

/-- Result of `inlineType`: the static-type text, the validator expression and
the optionality flag. -/
structure InlineResult where
  ts : String
  scheme : SchemeExpr
  optional : Bool
  deriving Repr

/-- Result of `properties`: the pushed `ts` lines, and the validator entries
(name paired with the — possibly `tOptional`-wrapped — validator expression);
the JS pushes the printed line for each entry instead. -/
structure PropsResult where
  ts : List String
  scheme : List (String × SchemeExpr)
  deriving Repr

/-- `mixins.get(value)`: the splice value must be a string naming a mixin. -/
def mixLookup (ctx : Ctx) : TypeExpr → Option PropList
  | .str m => mget ctx.mixins m
  | _ => none

/-- The name used in the `unknownMixin` diagnostic. -/
def mixName : TypeExpr → String
  | .str m => m
  | _ => ""

mutual

/-- `inlineType(type, indent, wrapEnums)` from the source, resolving one type
expression into `{ts, scheme, optional}`. -/
def inlineType (ctx : Ctx) (fuel : Nat) (type : TypeExpr) (indent : String)
    (wrapEnums : Bool) : Except GenError InlineResult :=
  match fuel with
  | 0 => .error .fuelExhausted
  | f + 1 =>
    match type with
    | .str s =>
      let optional := strEndsWith s "?"
      let t := if optional then strDropLast s else s
      if t = "binary" then .ok ⟨"Binary", .tBinary, optional⟩
      else if t = "json" then .ok ⟨"any", .tAny, optional⟩
      else if t = "string" ∨ t = "boolean" ∨ t = "number" ∨ t = "undefined" then
        .ok ⟨t, primScheme t, optional⟩
      else if ctx.channels.contains t then
        .ok ⟨t ++ "Channel", .tChannel t, optional⟩
      else if t = "Channel" then .ok ⟨"Channel", .tChannel "*", optional⟩
      else .ok ⟨t, .tType t, optional⟩
    | .arrayT tag items =>
      let optional := strEndsWith tag "?"
      match inlineType ctx f items indent true with
      | .error e => .error e
      | .ok inner => .ok ⟨inner.ts ++ "[]", .tArray inner.scheme, optional⟩
    | .enumT tag literals =>
      let optional := strEndsWith tag "?"
      let ts := " | ".intercalate (literals.map q)
      .ok ⟨if wrapEnums then "(" ++ ts ++ ")" else ts, .tEnum literals, optional⟩
    | .objectT tag props =>
      let optional := strEndsWith tag "?"
      match visitProps ctx f (indent ++ "  ") false props with
      | .error e => .error e
      | .ok inner =>
        .ok ⟨"\x7b\n" ++ "\n".intercalate inner.ts ++ "\n" ++ indent ++ "\x7d",
             .tObject inner.scheme, optional⟩
    | .badT => .error .invalidItem

/-- The `visitProperties` loop inside `properties(props, indent, onlyOptional)`:
walks the entries in order, splicing mixins in place, resolving each value with
`inlineType`, skipping non-optional entries when `onlyOptional` is set, and
accumulating the `ts` line and the (wrapped) validator entry. -/
def visitProps (ctx : Ctx) (fuel : Nat) (indent : String) (onlyOptional : Bool)
    (props : PropList) : Except GenError PropsResult :=
  match fuel with
  | 0 => .error .fuelExhausted
  | f + 1 =>
    match props with
    | [] => .ok ⟨[], []⟩
    | (name, value) :: rest =>
      if strStartsWith name "$mixin" then
        match mixLookup ctx value with
        | none => .error (.unknownMixin (mixName value))
        | some mprops =>
          match visitProps ctx f indent onlyOptional mprops with
          | .error e => .error e
          | .ok expanded =>
            match visitProps ctx f indent onlyOptional rest with
            | .error e => .error e
            | .ok tail =>
              .ok ⟨expanded.ts ++ tail.ts, expanded.scheme ++ tail.scheme⟩
      else
        match inlineType ctx f value indent false with
        | .error e => .error e
        | .ok inner =>
          match visitProps ctx f indent onlyOptional rest with
          | .error e => .error e
          | .ok tail =>
            if onlyOptional ∧ ¬ inner.optional then .ok tail
            else
              .ok ⟨(indent ++ name ++ (if inner.optional then "?" else "") ++
                      ": " ++ inner.ts ++ ",") :: tail.ts,
                   (name, if inner.optional then .tOptional inner.scheme
                          else inner.scheme) :: tail.scheme⟩

end

/-- `objectType(props, indent, onlyOptional)` from the source: the empty
property list short-circuits to the explicit empty-object forms. -/
def objectType (ctx : Ctx) (fuel : Nat) (props : PropList) (indent : String)
    (onlyOptional : Bool) : Except GenError (String × SchemeExpr) :=
  if props.isEmpty then .ok ("\x7b\x7d", .tObject [])
  else
    match visitProps ctx fuel (indent ++ "  ") onlyOptional props with
    | .error e => .error e
    | .ok inner =>
      .ok ("\x7b\n" ++ "\n".intercalate inner.ts ++ "\n" ++ indent ++ "\x7d",
           .tObject inner.scheme)

mutual

/-- Print a validator expression to the text the generator concatenates.  The
only deviation: an *inline* empty object prints here as `tObject({})` while the
JS string for that corner contains a blank line; no claim depends on that
whitespace. -/
def printScheme (indent : String) : SchemeExpr → String
  | .tBinary => "tBinary"
  | .tAny => "tAny"
  | .tString => "tString"
  | .tBoolean => "tBoolean"
  | .tNumber => "tNumber"
  | .tUndefined => "tUndefined"
  | .tChannel name => "tChannel(" ++ q name ++ ")"
  | .tType name => "tType(" ++ q name ++ ")"
  | .tArray items => "tArray(" ++ printScheme indent items ++ ")"
  | .tEnum literals => "tEnum([" ++ ", ".intercalate (literals.map q) ++ "])"
  | .tObject props =>
    if props.isEmpty then "tObject(\x7b\x7d)"
    else "tObject(\x7b\n" ++
      "\n".intercalate (printEntries (indent ++ "  ") props) ++
      "\n" ++ indent ++ "\x7d)"
  | .tOptional inner => "tOptional(" ++ printScheme indent inner ++ ")"

/-- Print the entry lines of an object validator at the given indent, exactly
as `properties` pushes them. -/
def printEntries (indent : String) : List (String × SchemeExpr) → List String
  | [] => []
  | p :: rest =>
    (indent ++ p.1 ++ ": " ++ printScheme indent p.2 ++ ",") ::
      printEntries indent rest

end

/-- `tracing: {snapshot?, pausesBeforeInput?}` on a command definition. -/
structure Tracing where
  snapshot : Bool
  pausesBeforeInput : Bool
  deriving Repr

/-- A command definition; absent YAML keys are `none` (JS `undefined`). -/
structure Command where
  parameters : Option PropList
  returns : Option PropList
  tracing : Option Tracing
  deriving Repr

/-- The `method = {}` normalization applied to a null command body. -/
def Command.empty : Command := ⟨none, none, none⟩

/-- `method.tracing && method.tracing.snapshot`. -/
def Command.snap (c : Command) : Bool :=
  (c.tracing.map Tracing.snapshot).getD false

/-- `method.tracing && method.tracing.pausesBeforeInput`. -/
def Command.pausesBI (c : Command) : Bool :=
  (c.tracing.map Tracing.pausesBeforeInput).getD false

/-- An event definition. -/
structure Event where
  parameters : Option PropList
  deriving Repr

/-- One entity of the schema document, keyed by its `type` field.  Entries with
any other `type` value are silently skipped by every loop of the generator;
`other` stands for those. -/
inductive Item where
  | interface («extends» : Option String) (initializer : Option PropList)
      (commands : List (String × Option Command))
      (events : List (String × Option Event))
  | object (properties : PropList)
  | enum (literals : List String)
  | mixin (properties : PropList)
  | other
  deriving Repr

/-- The parsed schema document: `Object.entries(protocol)`, in document order. -/
abbrev Protocol := List (String × Item)

/-- Whether an entity is a channel (its `type` field reads `interface`). -/
def isInterface : Item → Bool
  | .interface _ _ _ _ => true
  | _ => false

/-- The `channels` set built by the first pass, in document order. -/
def channelsOf (p : Protocol) : List String :=
  p.filterMap (fun x => if isInterface x.2 then some x.1 else none)

/-- The `inherits` map built by the first pass (child ↦ parent). -/
def inheritsOf (p : Protocol) : List (String × String) :=
  p.filterMap (fun x =>
    match x.2 with
    | .interface (some e) _ _ _ => some (x.1, e)
    | _ => none)

/-- The `mixins` map built by the first pass. -/
def mixinsOf (p : Protocol) : List (String × PropList) :=
  p.filterMap (fun x =>
    match x.2 with
    | .mixin props => some (x.1, props)
    | _ => none)

/-- The global registries seen by the type resolver. -/
def ctxOf (p : Protocol) : Ctx := ⟨channelsOf p, mixinsOf p⟩

/-- `derivedClasses.get(parent) || []`: the *direct* children of a channel, in
document order — the map is not transitively closed. -/
def derivedClasses (p : Protocol) (parent : String) : List String :=
  p.filterMap (fun x =>
    match x.2 with
    | .interface (some e) _ _ _ => if e == parent then some x.1 else none
    | _ => none)

/-- The alias loop `for (key of inherits.keys()) if (inherits.get(key) ===
channelName)`: all direct children, in key-insertion order. -/
def aliasChildren (inh : List (String × String)) (parent : String) :
    List String :=
  (mapKeys inh).filter (fun k => mget inh k == some parent)

/-- The tracing entries pushed for one command when its flag is set: the
own `"Channel.method"` of the channel plus one entry per *direct* derived class. -/
def cmdMarks (derived : List String) (channelName methodName : String)
    (flag : Bool) : List String :=
  if flag then
    (channelName ++ "." ++ methodName) ::
      derived.map (fun d => d ++ "." ++ methodName)
  else []

/-- `addScheme(name, s)`: the lines pushed onto `validator_ts`. -/
def addSchemeLines (name : String) (e : SchemeExpr) : List String :=
  (splitOnChar nl ("scheme." ++ name ++ " = " ++ printScheme "" e ++ ";")).map
    (fun line => "  " ++ line)

/-- Accumulated output of the events loop of one channel. -/
structure EvOut where
  onLines : List String
  tsTypes : List (String × String)
  eventTypes : List (String × String)
  deriving Repr

/-- The events loop (source lines 247–255): one `on(...)` signature and one
`ts_types` entry per event. -/
def processEvents (ctx : Ctx) (fuel : Nat) (channelName : String) :
    List (String × Option Event) → List (String × String) →
    Except GenError EvOut
  | [], tsTypes => .ok ⟨[], tsTypes, []⟩
  | (eventName, evOpt) :: rest, tsTypes =>
    let event := evOpt.getD ⟨none⟩
    match objectType ctx fuel (event.parameters.getD []) "" false with
    | .error e => .error e
    | .ok parameters =>
      let paramsName := channelName ++ titleCase eventName ++ "Event"
      match processEvents ctx fuel channelName rest
          (msetJS tsTypes paramsName parameters.1) with
      | .error e => .error e
      | .ok tail =>
        .ok ⟨("  on(event: " ++ q eventName ++ ", callback: (params: " ++
                paramsName ++ ") => void): this;") :: tail.onLines,
             tail.tsTypes, (eventName, paramsName) :: tail.eventTypes⟩

/-- The method signature line pushed for one command: the `params` argument
is marked optional (`params?`) exactly when the command declares no
parameters. -/
def methodSigLine (methodName paramsName resultName : String)
    (hasParams : Bool) : String :=
  "  " ++ methodName ++ "(params" ++ (if hasParams then "" else "?") ++
  ": " ++ paramsName ++ ", metadata?: Metadata): Promise<" ++ resultName ++
  ">;"

/-- Accumulated output of the commands loop of one channel. -/
structure CmdOut where
  chLines : List String
  valLines : List String
  schemeEntries : List (String × SchemeExpr)
  snaps : List String
  pauses : List String
  tsTypes : List (String × String)
  deriving Repr, Inhabited

/-- The commands loop (source lines 260–289): tracing collection, Params /
Options / Result types, the validator entry, the inherited-command aliases and
the method signature. -/
def processCommands (ctx : Ctx) (fuel : Nat) (inh : List (String × String))
    (derived : List String) (channelName : String) :
    List (String × Option Command) → List (String × String) →
    Except GenError CmdOut
  | [], tsTypes => .ok ⟨[], [], [], [], [], tsTypes⟩
  | (methodName, mOpt) :: rest, tsTypes =>
    let method := mOpt.getD Command.empty
    let snapsHere := cmdMarks derived channelName methodName method.snap
    let pausesHere := cmdMarks derived channelName methodName method.pausesBI
    match objectType ctx fuel (method.parameters.getD []) "" false with
    | .error e => .error e
    | .ok parameters =>
      let paramsName := channelName ++ titleCase methodName ++ "Params"
      let optionsName := channelName ++ titleCase methodName ++ "Options"
      match objectType ctx fuel (method.parameters.getD []) "" true with
      | .error e => .error e
      | .ok options =>
        let tsTypes2 :=
          msetJS (msetJS tsTypes paramsName parameters.1) optionsName options.1
        let paramsScheme :=
          if method.parameters.isSome then parameters.2
          else .tOptional (.tObject [])
        let aliasNames := (aliasChildren inh channelName).map
          (fun k => k ++ titleCase methodName ++ "Params")
        let resultName := channelName ++ titleCase methodName ++ "Result"
        match objectType ctx fuel (method.returns.getD []) "" false with
        | .error e => .error e
        | .ok returns =>
          let tsTypes3 := msetJS tsTypes2 resultName
            (if method.returns.isSome then returns.1 else "void")
          let methodLine := methodSigLine methodName paramsName resultName
            method.parameters.isSome
          match processCommands ctx fuel inh derived channelName rest
              tsTypes3 with
          | .error e => .error e
          | .ok tail =>
            .ok ⟨methodLine :: tail.chLines,
                 (addSchemeLines paramsName paramsScheme ++
                   aliasNames.flatMap
                     (fun n => addSchemeLines n (.tType paramsName))) ++
                   tail.valLines,
                 ((paramsName, paramsScheme) ::
                   aliasNames.map (fun n => (n, SchemeExpr.tType paramsName)))
                   ++ tail.schemeEntries,
                 snapsHere ++ tail.snaps, pausesHere ++ tail.pauses,
                 tail.tsTypes⟩

/-- Everything one entity contributes to the two artifacts. -/
structure EntityOut where
  chLines : List String
  valLines : List String
  schemeEntries : List (String × SchemeExpr)
  snaps : List String
  pauses : List String
  deriving Repr

/-- The body of the main loop for one entity (source lines 234–311). -/
def processEntity (ctx : Ctx) (fuel : Nat) (inh : List (String × String))
    (derived : List String) (name : String) (item : Item) :
    Except GenError EntityOut :=
  match item with
  | .interface ext init commands events =>
    match objectType ctx fuel (init.getD []) "" false with
    | .error e => .error e
    | .ok initR =>
      match processEvents ctx fuel name events [] with
      | .error e => .error e
      | .ok evOut =>
        match processCommands ctx fuel inh derived name commands
            evOut.tsTypes with
        | .error e => .error e
        | .ok cmdOut =>
          .ok ⟨["// ----------- " ++ name ++ " -----------",
                "export type " ++ name ++ "Initializer = " ++ initR.1 ++ ";",
                "export interface " ++ name ++ "EventTarget \x7b"] ++
               evOut.onLines ++
               ["\x7d",
                "export interface " ++ name ++ "Channel extends " ++ name ++
                  "EventTarget, " ++ (ext.getD "" ++ "Channel") ++ " \x7b",
                "  _type_" ++ name ++ ": boolean;"] ++
               cmdOut.chLines ++
               ["\x7d"] ++
               cmdOut.tsTypes.map
                 (fun kv => "export type " ++ kv.1 ++ " = " ++ kv.2 ++ ";") ++
               [""] ++
               ["export interface " ++ name ++ "Events \x7b"] ++
               evOut.eventTypes.map
                 (fun kv => "  " ++ q kv.1 ++ ": " ++ kv.2 ++ ";") ++
               ["\x7d\n"],
               cmdOut.valLines, cmdOut.schemeEntries, cmdOut.snaps,
               cmdOut.pauses⟩
  | .object props =>
    match objectType ctx fuel props "" false with
    | .error e => .error e
    | .ok inner =>
      .ok ⟨["export type " ++ name ++ " = " ++ inner.1 ++ ";", ""],
           addSchemeLines name inner.2, [(name, inner.2)], [], []⟩
  | .enum literals =>
    .ok ⟨["export type " ++ name ++ " = " ++
            " | ".intercalate (literals.map q) ++ ";"],
         addSchemeLines name (.tEnum literals), [(name, .tEnum literals)],
         [], []⟩
  | _ => .ok ⟨[], [], [], [], []⟩

/-- The main loop over all entities, concatenating their contributions in
document order. -/
def compileEntities (ctx : Ctx) (fuel : Nat) (inh : List (String × String))
    (p : Protocol) : List (String × Item) → Except GenError EntityOut
  | [] => .ok ⟨[], [], [], [], []⟩
  | (name, item) :: rest =>
    match processEntity ctx fuel inh (derivedClasses p name) name item with
    | .error e => .error e
    | .ok o =>
      match compileEntities ctx fuel inh p rest with
      | .error e => .error e
      | .ok os =>
        .ok ⟨o.chLines ++ os.chLines, o.valLines ++ os.valLines,
             o.schemeEntries ++ os.schemeEntries, o.snaps ++ os.snaps,
             o.pauses ++ os.pauses⟩

/-- One conditional line of a trait mapping, skipping non-channel entities. -/
def traitLine (suffix : String) (x : String × Item) : Option String :=
  if isInterface x.2 then
    some ("    T extends " ++ x.1 ++ "Channel ? " ++ x.1 ++ suffix ++ " :")
  else none

/-- The `InitializerTraits` section: the loop runs over
`Object.entries(protocol).reverse()`. -/
def initializerTraits (p : Protocol) : List String :=
  ["// ----------- Initializer Traits -----------",
   "export type InitializerTraits<T> ="] ++
  p.reverse.filterMap (traitLine "Initializer") ++
  ["    object;", ""]

/-- The `EventsTraits` section, over the same reversed entries. -/
def eventsTraits (p : Protocol) : List String :=
  ["// ----------- Event Traits -----------",
   "export type EventsTraits<T> ="] ++
  p.reverse.filterMap (traitLine "Events") ++
  ["    undefined;", ""]

/-- The `EventTargetTraits` section, over the same reversed entries. -/
def eventTargetTraits (p : Protocol) : List String :=
  ["// ----------- EventTarget Traits -----------",
   "export type EventTargetTraits<T> ="] ++
  p.reverse.filterMap (traitLine "EventTarget") ++
  ["    undefined;", ""]

/-- The shared Apache license header of both generated files. -/
def licenseHeader : String :=
  "/**\n * Copyright (c) Microsoft Corporation.\n *\n * Licensed under the Apache License, Version 2.0 (the \"License\");\n * you may not use this file except in compliance with the License.\n * You may obtain a copy of the License at\n *\n * http://www.apache.org/licenses/LICENSE-2.0\n *\n * Unless required by applicable law or agreed to in writing, software\n * distributed under the License is distributed on an \"AS IS\" BASIS,\n * WITHOUT WARRANTIES OR CONDITIONS OF ANY KIND, either express or implied.\n * See the License for the specific language governing permissions and\n * limitations under the License.\n */"

/-- The fixed first element of `channels_ts`. -/
def channelsBanner : String :=
  licenseHeader ++
  "\n\n// This file is generated by generate_channels.js, do not edit manually.\n\nexport type Binary = string;\n\nexport interface Channel \x7b\n\x7d\n"

/-- The fixed first element of `validator_ts`: banner, imports and the opening
of `createScheme` with its late-bound `tType` lookup. -/
def validatorBanner : String :=
  licenseHeader ++
  "\n\n// This file is generated by generate_channels.js, do not edit manually.\n\n" ++
  "import type \x7b Validator \x7d from " ++ q "./validatorPrimitives" ++
  ";\n" ++
  "import \x7b ValidationError, tOptional, tObject, tBoolean, tNumber, tString, tAny, tEnum, tArray, tBinary \x7d from " ++
  q "./validatorPrimitives" ++ ";\n" ++
  "export type \x7b Validator \x7d from " ++ q "./validatorPrimitives" ++
  ";\n" ++
  "export \x7b ValidationError \x7d from " ++ q "./validatorPrimitives" ++
  ";\n\ntype Scheme = \x7b [key: string]: Validator \x7d;\n\nexport function createScheme(tChannel: (name: string) => Validator): Scheme \x7b\n  const scheme: Scheme = \x7b\x7d;\n\n  const tType = (name: string): Validator => \x7b\n    return (arg: any, path: string) => \x7b\n      const v = scheme[name];\n      if (!v)\n        throw new ValidationError(path + " ++
  q ": unknown type \"" ++ " + name + " ++ q "\"" ++
  ");\n      return v(arg, path);\n    \x7d;\n  \x7d;\n"

/-- One `new Set([...])` constant declaration of `channels_ts`. -/
def setDecl (constName : String) (items : List String) : String :=
  "export const " ++ constName ++ " = new Set([\n  " ++ sq ++
  (sq ++ ",\n  " ++ sq).intercalate items ++ sq ++ "\n]);"

/-- The two artifact texts, the structured validator registry and the two
tracing collections of one run. -/
structure Artifacts where
  channelsTs : String
  validatorTs : String
  schemeEntries : List (String × SchemeExpr)
  tracingSnapshots : List String
  pausesBeforeInputActions : List String
  deriving Repr, Inhabited

/-- The whole generation phase: first pass, trait sections, main loop, tracing
set declarations and the `createScheme` closing — everything up to (but not
including) the file writes. -/
def compile (fuel : Nat) (p : Protocol) : Except GenError Artifacts :=
  let ctx := ctxOf p
  let inh := inheritsOf p
  match compileEntities ctx fuel inh p p with
  | .error e => .error e
  | .ok eo =>
    .ok ⟨"\n".intercalate
           ([channelsBanner] ++ initializerTraits p ++ eventsTraits p ++
            eventTargetTraits p ++ eo.chLines ++
            [setDecl "commandsWithTracingSnapshots" eo.snaps, "",
             setDecl "pausesBeforeInputActions" eo.pauses]),
         "\n".intercalate
           ([validatorBanner] ++ eo.valLines ++
            ["\n  return scheme;\n\x7d\n"]),
         eo.schemeEntries, eo.snaps, eo.pauses⟩

/-- The two output files; `none` means the file does not exist. -/
structure FS where
  channelsFile : Option String
  validatorFile : Option String
  deriving Repr, DecidableEq

/-- `writeFile(filePath, content)`: read the existing file (throwing when it is
missing), compare, and write only on difference.  Returns the resulting file
content and whether a write occurred (the `hasChanges` contribution). -/
def writeFileJS (existing : Option String) (content : String) :
    Except GenError (String × Bool) :=
  match existing with
  | none => .error .missingTarget
  | some old => if old = content then .ok (old, false) else .ok (content, true)

/-- A whole run of the generator script: generate both artifacts in memory,
then write `channels.ts`, then `validator.ts`, then `process.exit(hasChanges ?
1 : 0)`.  Returns the final state of the two files and either the exit code or
the error that aborted the run. -/
def run (fuel : Nat) (p : Protocol) (fs : FS) : FS × Except GenError Nat :=
  match compile fuel p with
  | .error e => (fs, .error e)
  | .ok art =>
    match writeFileJS fs.channelsFile art.channelsTs with
    | .error e => (fs, .error e)
    | .ok (c1, ch1) =>
      match writeFileJS fs.validatorFile art.validatorTs with
      | .error e => (⟨some c1, fs.validatorFile⟩, .error e)
      | .ok (c2, ch2) =>
        (⟨some c1, some c2⟩, .ok (if ch1 || ch2 then 1 else 0))

/-- Whether an `Except` result is a success. -/
def exOk {ε α : Type} : Except ε α → Bool
  | .ok _ => true
  | .error _ => false

/-- The mixin-expanded, resolved entry list of a property list: every splice
marker is replaced in place by the referenced mixin entry list (recursively
expanded) entries, and every remaining entry is resolved with `inlineType`.
The fuel accounting mirrors `visitProps` exactly. -/
def resolvedEntries (ctx : Ctx) (fuel : Nat) (indent : String)
    (props : PropList) : Except GenError (List (String × InlineResult)) :=
  match fuel with
  | 0 => .error .fuelExhausted
  | f + 1 =>
    match props with
    | [] => .ok []
    | (name, value) :: rest =>
      if strStartsWith name "$mixin" then
        match mixLookup ctx value with
        | none => .error (.unknownMixin (mixName value))
        | some mprops =>
          match resolvedEntries ctx f indent mprops with
          | .error e => .error e
          | .ok expanded =>
            match resolvedEntries ctx f indent rest with
            | .error e => .error e
            | .ok tail => .ok (expanded ++ tail)
      else
        match inlineType ctx f value indent false with
        | .error e => .error e
        | .ok inner =>
          match resolvedEntries ctx f indent rest with
          | .error e => .error e
          | .ok tail => .ok ((name, inner) :: tail)

/-- The `ts` line `properties` pushes for one resolved entry. -/
def entryTsLine (indent : String) (e : String × InlineResult) : String :=
  indent ++ e.1 ++ (if e.2.optional then "?" else "") ++ ": " ++ e.2.ts ++ ","

/-- The validator entry `properties` pushes for one resolved entry. -/
def entryScheme (e : String × InlineResult) : String × SchemeExpr :=
  (e.1, if e.2.optional then .tOptional e.2.scheme else e.2.scheme)

/-- The entries kept by the optional projection: all of them, or exactly the
individually optional ones. -/
def selectOptional (onlyOptional : Bool)
    (es : List (String × InlineResult)) : List (String × InlineResult) :=
  if onlyOptional then es.filter (fun e => e.2.optional) else es

mutual

/-- Well-formedness of a type expression at a given fuel: every shape is a
recognized variant and every mixin splice resolves, within the fuel bound.
The fuel accounting mirrors `inlineType`. -/
def wfType (ctx : Ctx) (fuel : Nat) (t : TypeExpr) : Bool :=
  match fuel with
  | 0 => false
  | f + 1 =>
    match t with
    | .str _ => true
    | .arrayT _ items => wfType ctx f items
    | .enumT _ _ => true
    | .objectT _ props => wfProps ctx f props
    | .badT => false

/-- Well-formedness of a property list at a given fuel (mirrors
`visitProps`). -/
def wfProps (ctx : Ctx) (fuel : Nat) (props : PropList) : Bool :=
  match fuel with
  | 0 => false
  | f + 1 =>
    match props with
    | [] => true
    | (name, value) :: rest =>
      if strStartsWith name "$mixin" then
        match mixLookup ctx value with
        | none => false
        | some mprops => wfProps ctx f mprops && wfProps ctx f rest
      else wfType ctx f value && wfProps ctx f rest

end

/-- Well-formedness of a property list as `objectType` consumes it: the empty
list never fails. -/
def wfObject (ctx : Ctx) (fuel : Nat) (props : PropList) : Bool :=
  props.isEmpty || wfProps ctx fuel props

/-- Well-formedness of the parameter and result lists of one command. -/
def wfCommand (ctx : Ctx) (fuel : Nat) (c : Command) : Bool :=
  wfObject ctx fuel (c.parameters.getD []) &&
  wfObject ctx fuel (c.returns.getD [])

/-- Well-formedness of everything one entity makes the resolver touch. -/
def wfItem (ctx : Ctx) (fuel : Nat) : Item → Bool
  | .interface _ init commands events =>
    wfObject ctx fuel (init.getD []) &&
    events.all (fun e => wfObject ctx fuel ((e.2.getD ⟨none⟩).parameters.getD [])) &&
    commands.all (fun c => wfCommand ctx fuel (c.2.getD Command.empty))
  | .object props => wfObject ctx fuel props
  | _ => true

/-- Well-formedness of a whole document at a given fuel. -/
def wfProtocol (fuel : Nat) (p : Protocol) : Bool :=
  p.all (fun x => wfItem (ctxOf p) fuel x.2)

mutual

/-- All mixin names spliced anywhere inside a type expression. -/
def spliceNamesT : TypeExpr → List String
  | .objectT _ props => spliceNames props
  | .arrayT _ items => spliceNamesT items
  | _ => []

/-- All mixin names spliced anywhere inside a property list (not following the
splices themselves). -/
def spliceNames : PropList → List String
  | [] => []
  | (name, value) :: rest =>
    (if strStartsWith name "$mixin" then [mixName value]
     else spliceNamesT value) ++ spliceNames rest

end

mutual

/-- A sufficient fuel for resolving a type expression, given a rank function
on mixin names under which every splice chain descends (acyclicity): defined
by recursion on the rank bound `R` and the structure. -/
def needFuelType (ctx : Ctx) (rank : String → Nat) (R : Nat)
    (t : TypeExpr) : Nat :=
  match t with
  | .str _ => 1
  | .arrayT _ items => needFuelType ctx rank R items + 1
  | .enumT _ _ => 1
  | .objectT _ props => needFuelProps ctx rank R props + 1
  | .badT => 1
termination_by (R, sizeOf t)

/-- A sufficient fuel for resolving a property list (see `needFuelType`). -/
def needFuelProps (ctx : Ctx) (rank : String → Nat) (R : Nat)
    (props : PropList) : Nat :=
  match props with
  | [] => 1
  | (name, value) :: rest =>
    if strStartsWith name "$mixin" then
      match mixLookup ctx value with
      | none => needFuelProps ctx rank R rest + 1
      | some mprops =>
        if _h : rank (mixName value) < R then
          max (needFuelProps ctx rank (rank (mixName value)) mprops)
              (needFuelProps ctx rank R rest) + 1
        else needFuelProps ctx rank R rest + 1
    else
      max (needFuelType ctx rank R value) (needFuelProps ctx rank R rest) + 1
termination_by (R, sizeOf props)

end

/-- The tracing-snapshot entries one command contributes. -/
def cmdSnaps (derived : List String) (channelName : String)
    (c : String × Option Command) : List String :=
  cmdMarks derived channelName c.1 (c.2.getD Command.empty).snap

/-- The pauses-before-input entries one command contributes. -/
def cmdPauses (derived : List String) (channelName : String)
    (c : String × Option Command) : List String :=
  cmdMarks derived channelName c.1 (c.2.getD Command.empty).pausesBI

/-- The tracing-snapshot entries one entity contributes. -/
def entitySnaps (derived : List String) (name : String) : Item → List String
  | .interface _ _ commands _ => commands.flatMap (cmdSnaps derived name)
  | _ => []

/-- The pauses-before-input entries one entity contributes. -/
def entityPauses (derived : List String) (name : String) : Item → List String
  | .interface _ _ commands _ => commands.flatMap (cmdPauses derived name)
  | _ => []

/-- The full snapshot collection of a document, in document/command order. -/
def tracingPure (p : Protocol) : List String :=
  p.flatMap (fun x => entitySnaps (derivedClasses p x.1) x.1 x.2)

/-- The full pauses-before-input collection of a document. -/
def pausesPure (p : Protocol) : List String :=
  p.flatMap (fun x => entityPauses (derivedClasses p x.1) x.1 x.2)

/-- A JavaScript runtime value, as far as structural validation is concerned. -/
inductive JsVal where
  | undefined
  | null
  | bool (b : Bool)
  | num (n : Int)
  | str (s : String)
  | obj (fields : List (String × JsVal))
  | arr (elems : List JsVal)
  | channel (kind : String)
  deriving Repr

/-- `arg[key]`: an absent field reads as `undefined`. -/
def jget (fields : List (String × JsVal)) (k : String) : JsVal :=
  ((fields.find? (fun kv => kv.1 == k)).map (fun kv => kv.2)).getD .undefined

/-- Modelled from the spec: the validator primitives live in
`validatorPrimitives.ts`, which is not among the sources — only the generated
`createScheme` uses them.  Per §4.1 and the glossary, a validator "structurally
checks a value against a resolved type": primitives accept exactly values of
their kind, the "optional" combinator accepts an absent (`undefined`) value or
whatever its inner validator accepts, an object validator requires an object
value and checks every declared property (reading absent properties as
`undefined`), an array validator checks every element, an enum validator checks
membership in the literal set, a channel validator checks the channel kind
(`"*"` matching any), and `tType` is the late-bound lookup of `createScheme`
(failing on an unknown name).  `fuel` bounds the lookup chain; it returns
`false` when exhausted. -/
def validate (reg : List (String × SchemeExpr)) :
    Nat → SchemeExpr → JsVal → Bool
  | 0, _, _ => false
  | f + 1, s, v =>
    match s, v with
    | .tBinary, .str _ => true
    | .tBinary, _ => false
    | .tAny, _ => true
    | .tString, .str _ => true
    | .tString, _ => false
    | .tBoolean, .bool _ => true
    | .tBoolean, _ => false
    | .tNumber, .num _ => true
    | .tNumber, _ => false
    | .tUndefined, .undefined => true
    | .tUndefined, _ => false
    | .tChannel k, .channel k2 => k == "*" || k2 == k
    | .tChannel _, _ => false
    | .tType n, _ =>
      match mget reg n with
      | none => false
      | some e => validate reg f e v
    | .tArray e, .arr xs => xs.all (fun x => validate reg f e x)
    | .tArray _, _ => false
    | .tEnum lits, .str s2 => lits.contains s2
    | .tEnum _, _ => false
    | .tObject props, .obj fields =>
      props.all (fun kv => validate reg f kv.2 (jget fields kv.1))
    | .tObject _, _ => false
    | .tOptional _, .undefined => true
    | .tOptional e, v2 => validate reg f e v2

/-! Concrete inputs used below to instantiate the theorems. -/

/-- A document whose only entity references the absent name `Missing`. -/
def pUnknownRef : Protocol := [("Obj", .object [("p", .str "Missing")])]

/-- A small well-formed document exercising enum, mixin splice, initializer,
command and event. -/
def pWf : Protocol :=
  [("E", .enum ["a", "b"]),
   ("M", .mixin [("x", .str "string")]),
   ("C", .interface none (some [("$mixin1", .str "M")])
      [("cmd", some ⟨some [("y", .str "number?")], none, none⟩)]
      [("ev", none)])]

/-- A document with a mixin splice to an absent mixin. -/
def pMissingMixin : Protocol := [("O", .object [("$mixin1", .str "Nope")])]

/-- A file state where `channels.ts` exists with stale content and
`validator.ts` is missing. -/
def fsStale : FS := ⟨some "stale", none⟩

/-- A file state where both targets exist with stale contents. -/
def fsBoth : FS := ⟨some "a", some "b"⟩

/-- Channels `A ← B ← G` with both tracing flags on a command of `A`. -/
def pABG : Protocol :=
  [("A", .interface none none
      [("click", some ⟨some [("x", .str "number")], none, some ⟨true, true⟩⟩)]
      []),
   ("B", .interface (some "A") none [] []),
   ("G", .interface (some "B") none [] [])]

/-- The artifacts generated from `pABG`. -/
def artABG : Artifacts := ((compile 9 pABG).toOption).getD default

/-- Channel `A` with a command `foo`, and `B extends A` with no own
commands. -/
def pAB : Protocol :=
  [("A", .interface none none
      [("foo", some ⟨some [("x", .str "string")], none, none⟩)] []),
   ("B", .interface (some "A") none [] [])]

/-- The artifacts generated from `pAB`. -/
def artAB : Artifacts := ((compile 9 pAB).toOption).getD default

/-- A channel whose only command has a single, individually optional
parameter — so no parameter property is required. -/
def pOptParams : Protocol :=
  [("A", .interface none none
      [("foo", some ⟨some [("x", .str "string?")], none, none⟩)] [])]

/-- The artifacts generated from `pOptParams`. -/
def artOpt : Artifacts := ((compile 9 pOptParams).toOption).getD default

/-- The artifacts generated from the empty document. -/
def artNil : Artifacts := ((compile 1 []).toOption).getD default

/-- The commands-loop output for a single command `bar` declared with a null
body (so no parameters at all). -/
def cmdOut7 : CmdOut :=
  ((processCommands ⟨[], []⟩ 5 [] [] "A" [("bar", none)] []).toOption).getD
    default

/-- A registry with a mixin that splices itself: the cyclic case. -/
def cycCtx : Ctx := ⟨[], [("M", [("$mixin", .str "M")])]⟩

/-- A registry whose single mixin splices nothing: an acyclic case. -/
def acyCtx : Ctx := ⟨[], [("M1", [("a", .str "string")])]⟩

end GC

namespace UA

/-!
Shallow embedding of `packages/playwright-core/src/common/userAgent.ts`.
The ambient process state (platform, `os.release()`, the `sw_vers` child
process, the linux distribution probe, environment variables, `process.version`
and the package version) is collected in `Env`; the two operations that can
throw — `execSync` and the `package.json` require — are `Except`-valued.
`getLinuxDistributionInfoSync` lives in `utils/linuxUtils.ts`, which is not
among the sources; per its call site it returns either distribution info or
nothing, and never throws (the `Sync` variant swallows errors).
-/

/-- What `getLinuxDistributionInfoSync` reports; empty strings stand for
missing (falsy) fields. -/
structure DistroInfo where
  id : String
  version : String
  deriving Repr

/-- The ambient process state read while computing the user agent. -/
structure Env where
  platform : String
  osRelease : String
  swVers : Except Unit String
  distroInfo : Option DistroInfo
  envCI : Bool
  pwLangName : String
  pwLangNameVersion : Option String
  nodeVersion : String
  arch : String
  packageVersion : Except Unit String
  deriving Repr

/-- The dot character. -/
def dot : Char := Char.ofNat 46

/-- `version[i]` of a JS dot-split result: an out-of-range index reads as
`undefined`, which stringifies to `"undefined"` in the template. -/
def part (l : List String) (i : Nat) : String := l.getD i "undefined"

/-- JS `String.trim`. -/
def jsTrim (s : String) : String :=
  String.mk (((s.data.dropWhile Char.isWhitespace).reverse.dropWhile
    Char.isWhitespace).reverse)

/-- `getClientLanguage()` from the source; `pwLangName = ""` models an unset
(falsy) `PW_LANG_NAME`. -/
def getClientLanguage (env : Env) : String × String :=
  if env.pwLangName = "" then
    ("node",
     ".".intercalate ((GC.splitOnChar dot (env.nodeVersion.drop 1)).take 2))
  else if ["node", "python", "java", "csharp"].contains env.pwLangName then
    (env.pwLangName, env.pwLangNameVersion.getD "unknown")
  else ("unknown", "unknown")

/-- The platform branch of `determineUserAgent()`: the `osIdentifier` and
`osVersion` it assigns, or the `execSync` throw on darwin. -/
def osIdVer (env : Env) : Except Unit (String × String) :=
  if env.platform = "win32" then
    let version := GC.splitOnChar dot env.osRelease
    .ok ("windows", part version 0 ++ "." ++ part version 1)
  else if env.platform = "darwin" then
    match env.swVers with
    | .error e => .error e
    | .ok out =>
      let version := GC.splitOnChar dot (jsTrim out)
      .ok ("macOS", part version 0 ++ "." ++ part version 1)
  else if env.platform = "linux" then
    match env.distroInfo with
    | some d =>
      .ok (if d.id = "" then "linux" else d.id,
           if d.version = "" then "unknown" else d.version)
    | none => .ok ("linux", "unknown")
  else .ok ("unknown", "unknown")

/-- `determineUserAgent()` from the source.  An `error` result stands for the
function throwing (the `execSync` call or the package-version require). -/
def determineUserAgent (env : Env) : Except Unit String :=
  match osIdVer env with
  | .error e => .error e
  | .ok (osIdentifier, osVersion) =>
    let serializedTokens := if env.envCI then " CI/1" else ""
    let lang := getClientLanguage env
    match env.packageVersion with
    | .error e => .error e
    | .ok pv =>
      .ok ("Playwright/" ++ pv ++ " (" ++ env.arch ++ "; " ++ osIdentifier ++
           " " ++ osVersion ++ ") " ++ lang.1 ++ "/" ++ lang.2 ++
           serializedTokens)

/-- `getUserAgent()` from the source, with the module-level `cachedUserAgent`
made explicit: takes the cache, returns the result and the new cache.  The
guard is JS truthiness, so a cached empty string would not short-circuit. -/
def getUserAgent (env : Env) (cachedUserAgent : Option String) :
    String × Option String :=
  if cachedUserAgent.getD "" ≠ "" then
    (cachedUserAgent.getD "", cachedUserAgent)
  else
    match determineUserAgent env with
    | .ok s => (s, some s)
    | .error _ => ("Playwright/unknown", some "Playwright/unknown")

/-- A Windows environment where everything succeeds. -/
def envWin : Env :=
  ⟨"win32", "10.0.19042", .error (), none, false, "", none, "v20.11.1",
   "x64", .ok "1.33.0"⟩

/-- A macOS environment where the `sw_vers` child process throws. -/
def envFail : Env :=
  ⟨"darwin", "", .error (), none, false, "", none, "v20.11.1", "x64",
   .ok "1.33.0"⟩

end UA


/-! ## Shared lemmas and claim theorems -/

namespace GC

/-- C5: each of the three emitted trait mappings (initializer-of, events-of,
event-target-of) lists the channel entities in exact reverse document order —
the loop runs over the reversed entries, so the chain equals the reverse of the
document-order chain — with non-channel entities skipped (`traitLine` yields
nothing for them), and each chain ends with its declared fallback case. -/
theorem c5_trait_chains_reverse_order (p : Protocol) :
    initializerTraits p =
      ["// ----------- Initializer Traits -----------",
       "export type InitializerTraits<T> ="] ++
      (p.filterMap (traitLine "Initializer")).reverse ++ ["    object;", ""] ∧
    eventsTraits p =
      ["// ----------- Event Traits -----------",
       "export type EventsTraits<T> ="] ++
      (p.filterMap (traitLine "Events")).reverse ++ ["    undefined;", ""] ∧
    eventTargetTraits p =
      ["// ----------- EventTarget Traits -----------",
       "export type EventTargetTraits<T> ="] ++
      (p.filterMap (traitLine "EventTarget")).reverse ++
      ["    undefined;", ""] := by
  refine ⟨?_, ?_, ?_⟩ <;>
    simp [initializerTraits, eventsTraits, eventTargetTraits,
      List.filterMap_reverse]

/-- C8: the output writer aborts the run when the target file is missing;
with an existing target it compares byte-for-byte and rewrites only on
difference; and a completed run exits with the neutral status 0 exactly when
neither file changed, and with the distinct status 1 when at least one file
was rewritten. -/
theorem c8_writer_and_exit_code :
    (∀ content, writeFileJS none content = .error .missingTarget) ∧
    (∀ old content, writeFileJS (some old) content =
        .ok (if old = content then (old, false) else (content, true))) ∧
    (∀ fuel p fs fs2 code, run fuel p fs = (fs2, .ok code) →
        (code = 0 ∧ fs2 = fs) ∨ (code = 1 ∧ fs2 ≠ fs)) := by
  refine ⟨fun _ => rfl, ?_, ?_⟩
  · intro old content
    by_cases h : old = content <;> simp [writeFileJS, h]
  · intro fuel p fs fs2 code h
    unfold run at h
    cases hc : compile fuel p with
    | error e => rw [hc] at h; simp at h
    | ok art =>
      rw [hc] at h
      obtain ⟨cf, vf⟩ := fs
      cases cf with
      | none => simp [writeFileJS] at h
      | some old1 =>
        cases vf with
        | none =>
          by_cases h1 : old1 = art.channelsTs <;> simp [writeFileJS, h1] at h
        | some old2 =>
          by_cases h1 : old1 = art.channelsTs <;>
            by_cases h2 : old2 = art.validatorTs <;>
            simp [writeFileJS, h1, h2] at h
          · exact Or.inl ⟨h.2.symm, by rw [← h.1, h1, h2]⟩
          · refine Or.inr ⟨h.2.symm, ?_⟩
            rw [← h.1]
            intro hcon
            injection congrArg FS.validatorFile hcon with hv
            exact h2 hv.symm
          · refine Or.inr ⟨h.2.symm, ?_⟩
            rw [← h.1]
            intro hcon
            injection congrArg FS.channelsFile hcon with hv
            exact h1 hv.symm
          · refine Or.inr ⟨h.2.symm, ?_⟩
            rw [← h.1]
            intro hcon
            injection congrArg FS.channelsFile hcon with hv
            exact h1 hv.symm

end GC

namespace GC

/-- C2 (amended): when generation itself aborts (unresolved mixin reference,
malformed shape, exhausted recursion), no file is touched; when the run
completes, both files hold the newly generated contents; but the two writes
are sequential, so when the first target exists with differing content while
the second target is missing, the first file is rewritten and the run then
aborts — a partial write. -/
theorem c2_no_partial_output_amended :
    (∀ fuel p fs e, compile fuel p = .error e →
        run fuel p fs = (fs, .error e)) ∧
    (∀ fuel p fs fs2 code art, run fuel p fs = (fs2, .ok code) →
        compile fuel p = .ok art →
        fs2 = ⟨some art.channelsTs, some art.validatorTs⟩) ∧
    (∀ fuel p fs art c, compile fuel p = .ok art → fs.channelsFile = some c →
        c ≠ art.channelsTs → fs.validatorFile = none →
        run fuel p fs = (⟨some art.channelsTs, none⟩, .error .missingTarget)) := by
  refine ⟨?_, ?_, ?_⟩
  · intro fuel p fs e h
    unfold run
    rw [h]
  · intro fuel p fs fs2 code art h hc
    unfold run at h
    rw [hc] at h
    obtain ⟨cf, vf⟩ := fs
    cases cf with
    | none => simp [writeFileJS] at h
    | some old1 =>
      cases vf with
      | none =>
        by_cases h1 : old1 = art.channelsTs <;> simp [writeFileJS, h1] at h
      | some old2 =>
        by_cases h1 : old1 = art.channelsTs <;>
          by_cases h2 : old2 = art.validatorTs <;>
          simp [writeFileJS, h1, h2] at h
        all_goals rw [← h.1]
  · intro fuel p fs art c hc hcf hne hvf
    unfold run
    rw [hc]
    obtain ⟨cf, vf⟩ := fs
    simp only at hcf hvf
    subst hcf hvf
    simp [writeFileJS, hne]

/-- C2 counterexample: on `fsStale` (existing, stale `channels.ts`; missing
`validator.ts`) the run aborts with `missingTarget`, yet `channels.ts` was
modified and `validator.ts` was not — partial output from an aborted run,
contradicting the claim that an aborted run modifies no file. -/
theorem c2_counterexample :
    (run 1 [] fsStale).2 = .error .missingTarget ∧
    (run 1 [] fsStale).1 ≠ fsStale ∧
    (run 1 [] fsStale).1.validatorFile = fsStale.validatorFile := by
  refine ⟨rfl, by decide, rfl⟩

end GC

/-- A generated user-agent string is never empty: it starts with
`Playwright/`. -/
theorem UA.playwrightHead_ne_empty (t : String) : "Playwright/" ++ t ≠ "" := by
  intro h
  have h2 := congrArg String.length h
  rw [String.length_append] at h2
  have h3 : ("Playwright/" : String).length = 11 := by decide
  have h4 : ("" : String).length = 0 := by decide
  omega

/-- A successfully determined user agent is a nonempty string. -/
theorem UA.determine_ok_ne_empty (env : UA.Env) (s : String)
    (h : UA.determineUserAgent env = .ok s) : s ≠ "" := by
  unfold UA.determineUserAgent at h
  cases hiv : UA.osIdVer env with
  | error e => rw [hiv] at h; cases h
  | ok iv =>
    rw [hiv] at h
    cases hpv : env.packageVersion with
    | error e => simp [hpv] at h
    | ok pv =>
      simp [hpv] at h
      rw [← h]
      apply UA.playwrightHead_ne_empty

/-- C10: `getUserAgent` never throws — when computing the user agent fails it
returns (and caches) the fallback `Playwright/unknown` — and every call after
the first returns exactly the string the first call returned, because the
result (fallback included) is cached. -/
theorem c10_getUserAgent_total_and_cached (env : UA.Env) (r : String)
    (st : Option String) (h : UA.getUserAgent env none = (r, st)) :
    st = some r ∧
    (∀ env2, UA.getUserAgent env2 (some r) = (r, some r)) ∧
    (GC.exOk (UA.determineUserAgent env) = false → r = "Playwright/unknown") := by
  unfold UA.getUserAgent at h
  simp at h
  cases hd : UA.determineUserAgent env with
  | ok s =>
    rw [hd] at h
    cases h
    refine ⟨rfl, ?_, ?_⟩
    · intro env2
      have hne := UA.determine_ok_ne_empty env _ hd
      unfold UA.getUserAgent
      simp [hne]
    · intro hfalse
      simp [GC.exOk] at hfalse
  | error e =>
    rw [hd] at h
    cases h
    refine ⟨rfl, ?_, fun _ => rfl⟩
    intro env2
    unfold UA.getUserAgent
    simp

/-- C10 witness: a concrete first call on Windows computes and caches a
string; the cached string is then returned verbatim even from an environment
where computing the user agent would fail; and a failing environment yields
the fallback. -/
theorem c10_witness :
    UA.getUserAgent UA.envFail
        (some "Playwright/1.33.0 (x64; windows 10.0) node/20.11") =
      ("Playwright/1.33.0 (x64; windows 10.0) node/20.11",
       some "Playwright/1.33.0 (x64; windows 10.0) node/20.11") ∧
    (UA.getUserAgent UA.envFail none).1 = "Playwright/unknown" :=
  ⟨(c10_getUserAgent_total_and_cached UA.envWin _ _ rfl).2.1 UA.envFail, rfl⟩

namespace GC

/-- C8 witness: the writer rejects a missing target, and a concrete run over
two stale targets rewrites them and exits with status 1. -/
theorem c8_witness :
    writeFileJS none "x" = .error .missingTarget ∧
    ((1 = 0 ∧ (run 1 [] fsBoth).1 = fsBoth) ∨
     (1 = 1 ∧ (run 1 [] fsBoth).1 ≠ fsBoth)) :=
  ⟨c8_writer_and_exit_code.1 "x",
   c8_writer_and_exit_code.2.2 1 [] fsBoth (run 1 [] fsBoth).1 1 rfl⟩

/-- C2 witness: a run whose generation aborts (missing mixin) leaves both
files untouched, and a run over an existing-but-stale first target and a
missing second target rewrites the first file and then aborts. -/
theorem c2_witness :
    run 1 pMissingMixin fsBoth = (fsBoth, .error (.unknownMixin "Nope")) ∧
    run 1 [] fsStale =
      (⟨some artNil.channelsTs, none⟩, .error .missingTarget) :=
  ⟨c2_no_partial_output_amended.1 1 pMissingMixin fsBoth
     (.unknownMixin "Nope") rfl,
   c2_no_partial_output_amended.2.2 1 [] fsStale artNil "stale" rfl rfl
     (by decide) rfl⟩

end GC

namespace GC

/-- The commands loop collects exactly the per-command tracing entries, in
command order, regardless of the `ts_types` accumulator. -/
theorem processCommands_snaps (ctx : Ctx) (fuel : Nat)
    (inh : List (String × String)) (derived : List String) (ch : String) :
    ∀ cmds acc out,
      processCommands ctx fuel inh derived ch cmds acc = .ok out →
      out.snaps = cmds.flatMap (cmdSnaps derived ch) ∧
      out.pauses = cmds.flatMap (cmdPauses derived ch) := by
  intro cmds
  induction cmds with
  | nil =>
    intro acc out h
    simp only [processCommands, Except.ok.injEq] at h
    subst h
    simp
  | cons c rest ih =>
    intro acc out h
    obtain ⟨mName, mOpt⟩ := c
    simp only [processCommands] at h
    split at h
    next e heq => simp at h
    next parameters heq1 =>
      split at h
      next e heq => simp at h
      next options heq2 =>
        split at h
        next e heq => simp at h
        next returns heq3 =>
          split at h
          next e heq => simp at h
          next tail heq4 =>
            simp only [Except.ok.injEq] at h
            subst h
            have hr := ih _ tail heq4
            simp [cmdSnaps, cmdPauses, hr.1, hr.2]
end GC

namespace GC

/-- The contribution of one entity to the tracing collections is exactly the
contribution of its commands. -/
theorem processEntity_snaps (ctx : Ctx) (fuel : Nat)
    (inh : List (String × String)) (derived : List String) (name : String)
    (item : Item) (out : EntityOut)
    (h : processEntity ctx fuel inh derived name item = .ok out) :
    out.snaps = entitySnaps derived name item ∧
    out.pauses = entityPauses derived name item := by
  cases item with
  | interface ext init commands events =>
    simp only [processEntity] at h
    split at h
    next e heq => simp at h
    next initR heq1 =>
      split at h
      next e heq => simp at h
      next evOut heq2 =>
        split at h
        next e heq => simp at h
        next cmdOut heq3 =>
          simp only [Except.ok.injEq] at h
          subst h
          have hr := processCommands_snaps ctx fuel inh derived name commands
            _ cmdOut heq3
          simp [entitySnaps, entityPauses, hr.1, hr.2]
  | object props =>
    simp only [processEntity] at h
    split at h
    next e heq => simp at h
    next inner heq1 =>
      simp only [Except.ok.injEq] at h
      subst h
      simp [entitySnaps, entityPauses]
  | enum literals =>
    simp only [processEntity, Except.ok.injEq] at h
    subst h
    simp [entitySnaps, entityPauses]
  | mixin props =>
    simp only [processEntity, Except.ok.injEq] at h
    subst h
    simp [entitySnaps, entityPauses]
  | other =>
    simp only [processEntity, Except.ok.injEq] at h
    subst h
    simp [entitySnaps, entityPauses]

/-- The tracing collections of the main loop are the concatenation of the
per-entity contributions, in document order. -/
theorem compileEntities_snaps (ctx : Ctx) (fuel : Nat)
    (inh : List (String × String)) (p : Protocol) :
    ∀ l eo, compileEntities ctx fuel inh p l = .ok eo →
      eo.snaps =
        l.flatMap (fun x => entitySnaps (derivedClasses p x.1) x.1 x.2) ∧
      eo.pauses =
        l.flatMap (fun x => entityPauses (derivedClasses p x.1) x.1 x.2) := by
  intro l
  induction l with
  | nil =>
    intro eo h
    simp only [compileEntities, Except.ok.injEq] at h
    subst h
    simp
  | cons x rest ih =>
    intro eo h
    obtain ⟨name, item⟩ := x
    simp only [compileEntities] at h
    split at h
    next e heq => simp at h
    next o heq1 =>
      split at h
      next e heq => simp at h
      next os heq2 =>
        simp only [Except.ok.injEq] at h
        subst h
        have h1 := processEntity_snaps ctx fuel inh (derivedClasses p name)
          name item o heq1
        have h2 := ih os heq2
        simp [h1.1, h1.2, h2.1, h2.2]

/-- The tracing collections emitted by a successful run equal their pure
characterizations. -/
theorem compile_tracing (fuel : Nat) (p : Protocol) (art : Artifacts)
    (h : compile fuel p = .ok art) :
    art.tracingSnapshots = tracingPure p ∧
    art.pausesBeforeInputActions = pausesPure p := by
  simp only [compile] at h
  split at h
  next e heq => simp at h
  next eo heq1 =>
    simp only [Except.ok.injEq] at h
    subst h
    have hr := compileEntities_snaps (ctxOf p) fuel (inheritsOf p) p p eo heq1
    simp [tracingPure, pausesPure, hr.1, hr.2]

/-- Membership in the tracing entries of one command. -/
theorem mem_cmdMarks (s : String) (derived : List String) (ch m : String)
    (flag : Bool) :
    s ∈ cmdMarks derived ch m flag ↔
      flag = true ∧ (s = ch ++ "." ++ m ∨
        ∃ d, d ∈ derived ∧ s = d ++ "." ++ m) := by
  cases flag with
  | false => simp [cmdMarks]
  | true =>
    simp only [cmdMarks, if_pos, List.mem_cons, List.mem_map, true_and]
    constructor
    · rintro (h | ⟨d, hd, hs⟩)
      · exact Or.inl h
      · exact Or.inr ⟨d, hd, hs.symm⟩
    · rintro (h | ⟨d, hd, hs⟩)
      · exact Or.inl h
      · exact Or.inr ⟨d, hd, hs.symm⟩

/-- Membership in the pure snapshot collection: exactly the flagged commands,
under the name of their own channel and of each *direct* child. -/
theorem mem_tracingPure (p : Protocol) (s : String) :
    s ∈ tracingPure p ↔
      ∃ name ext init cmds evs,
        (name, Item.interface ext init cmds evs) ∈ p ∧
        ∃ mName cOpt, (mName, cOpt) ∈ cmds ∧
          (cOpt.getD Command.empty).snap = true ∧
          (s = name ++ "." ++ mName ∨
           ∃ d, d ∈ derivedClasses p name ∧ s = d ++ "." ++ mName) := by
  unfold tracingPure
  rw [List.mem_flatMap]
  constructor
  · rintro ⟨⟨name, item⟩, hx, hs⟩
    cases item with
    | interface ext init cmds evs =>
      simp only [entitySnaps] at hs
      rw [List.mem_flatMap] at hs
      obtain ⟨⟨mName, cOpt⟩, hc, hm⟩ := hs
      rw [cmdSnaps, mem_cmdMarks] at hm
      exact ⟨name, ext, init, cmds, evs, hx, mName, cOpt, hc, hm.1, hm.2⟩
    | object props => simp [entitySnaps] at hs
    | enum literals => simp [entitySnaps] at hs
    | mixin props => simp [entitySnaps] at hs
    | other => simp [entitySnaps] at hs
  · rintro ⟨name, ext, init, cmds, evs, hx, mName, cOpt, hc, hflag, hor⟩
    refine ⟨(name, .interface ext init cmds evs), hx, ?_⟩
    simp only [entitySnaps]
    rw [List.mem_flatMap]
    exact ⟨(mName, cOpt), hc, by rw [cmdSnaps, mem_cmdMarks]; exact ⟨hflag, hor⟩⟩

/-- Membership in the pure pauses-before-input collection. -/
theorem mem_pausesPure (p : Protocol) (s : String) :
    s ∈ pausesPure p ↔
      ∃ name ext init cmds evs,
        (name, Item.interface ext init cmds evs) ∈ p ∧
        ∃ mName cOpt, (mName, cOpt) ∈ cmds ∧
          (cOpt.getD Command.empty).pausesBI = true ∧
          (s = name ++ "." ++ mName ∨
           ∃ d, d ∈ derivedClasses p name ∧ s = d ++ "." ++ mName) := by
  unfold pausesPure
  rw [List.mem_flatMap]
  constructor
  · rintro ⟨⟨name, item⟩, hx, hs⟩
    cases item with
    | interface ext init cmds evs =>
      simp only [entityPauses] at hs
      rw [List.mem_flatMap] at hs
      obtain ⟨⟨mName, cOpt⟩, hc, hm⟩ := hs
      rw [cmdPauses, mem_cmdMarks] at hm
      exact ⟨name, ext, init, cmds, evs, hx, mName, cOpt, hc, hm.1, hm.2⟩
    | object props => simp [entityPauses] at hs
    | enum literals => simp [entityPauses] at hs
    | mixin props => simp [entityPauses] at hs
    | other => simp [entityPauses] at hs
  · rintro ⟨name, ext, init, cmds, evs, hx, mName, cOpt, hc, hflag, hor⟩
    refine ⟨(name, .interface ext init cmds evs), hx, ?_⟩
    simp only [entityPauses]
    rw [List.mem_flatMap]
    exact ⟨(mName, cOpt), hc, by rw [cmdPauses, mem_cmdMarks]; exact ⟨hflag, hor⟩⟩

/-- C3: for every channel and every command whose definition carries
`tracing.snapshot` (respectively `tracing.pausesBeforeInput`), the string
`Channel.command` is recorded in the snapshot (respectively
pauses-before-input) set, and `Derived.command` is additionally recorded
exactly for the direct children of that channel — `derivedClasses` is the
direct (one-level) inverse of `extends`, so a grandchild is never recorded for
the flag of an ancestor. -/
theorem c3_tracing_direct_children_only (fuel : Nat) (p : Protocol)
    (art : Artifacts) (h : compile fuel p = .ok art) :
    art.tracingSnapshots = tracingPure p ∧
    art.pausesBeforeInputActions = pausesPure p ∧
    (∀ s, s ∈ art.tracingSnapshots ↔
      ∃ name ext init cmds evs,
        (name, Item.interface ext init cmds evs) ∈ p ∧
        ∃ mName cOpt, (mName, cOpt) ∈ cmds ∧
          (cOpt.getD Command.empty).snap = true ∧
          (s = name ++ "." ++ mName ∨
           ∃ d, d ∈ derivedClasses p name ∧ s = d ++ "." ++ mName)) ∧
    (∀ s, s ∈ art.pausesBeforeInputActions ↔
      ∃ name ext init cmds evs,
        (name, Item.interface ext init cmds evs) ∈ p ∧
        ∃ mName cOpt, (mName, cOpt) ∈ cmds ∧
          (cOpt.getD Command.empty).pausesBI = true ∧
          (s = name ++ "." ++ mName ∨
           ∃ d, d ∈ derivedClasses p name ∧ s = d ++ "." ++ mName)) := by
  have hc := compile_tracing fuel p art h
  refine ⟨hc.1, hc.2, ?_, ?_⟩
  · intro s
    rw [hc.1]
    exact mem_tracingPure p s
  · intro s
    rw [hc.2]
    exact mem_pausesPure p s

/-- C3 witness: on `A ← B ← G` with both flags on `A.click`, the emitted sets
contain `A.click` and `B.click` (direct child) and nothing for the grandchild
`G`. -/
theorem c3_witness :
    compile 9 pABG = .ok artABG ∧
    artABG.tracingSnapshots = tracingPure pABG ∧
    tracingPure pABG = ["A.click", "B.click"] ∧
    artABG.pausesBeforeInputActions = ["A.click", "B.click"] :=
  ⟨rfl, (c3_tracing_direct_children_only 9 pABG artABG rfl).1, rfl, rfl⟩

end GC

namespace GC

/-- Deduplication keeps exactly the original elements. -/
theorem mem_dedupKeys (a : String) : ∀ l, a ∈ dedupKeys l ↔ a ∈ l := by
  intro l
  induction l with
  | nil => simp [dedupKeys]
  | cons k rest ih =>
    simp only [dedupKeys, List.mem_cons, List.mem_filter, ih]
    by_cases hak : a = k
    · simp [hak]
    · simp [hak]

end GC

namespace GC

/-- A successful `Map.get` means the key occurs in the map. -/
theorem mget_some_mem {α : Type} (l : List (String × α)) (k : String) (v : α)
    (h : mget l k = some v) : k ∈ l.map (fun kv => kv.1) := by
  unfold mget at h
  cases hf : l.reverse.find? (fun kv => kv.1 == k) with
  | none => rw [hf] at h; cases h
  | some kv =>
    have h1 := List.mem_of_find?_eq_some hf
    have h2 := List.find?_some hf
    have h3 : kv.1 = k := by simpa using h2
    rw [List.mem_reverse] at h1
    rw [← h3]
    exact List.mem_map_of_mem _ h1

/-- A channel whose `inherits` entry points at `parent` is listed by the alias
loop for `parent`. -/
theorem mem_aliasChildren (inh : List (String × String)) (B A : String)
    (h : mget inh B = some A) : B ∈ aliasChildren inh A := by
  unfold aliasChildren mapKeys
  rw [List.mem_filter, mem_dedupKeys]
  exact ⟨mget_some_mem inh B A h, by simp [h]⟩

/-- For every command the loop registers the own `...Params` entry of the
validator entry, and one lazy `tType` alias entry per direct child listed by
the alias loop. -/
theorem processCommands_entries (ctx : Ctx) (fuel : Nat)
    (inh : List (String × String)) (derived : List String) (ch : String) :
    ∀ cmds acc out,
      processCommands ctx fuel inh derived ch cmds acc = .ok out →
      ∀ mName cOpt, (mName, cOpt) ∈ cmds →
        (∃ sE, (ch ++ titleCase mName ++ "Params", sE) ∈ out.schemeEntries) ∧
        (∀ k, k ∈ aliasChildren inh ch →
          (k ++ titleCase mName ++ "Params",
            SchemeExpr.tType (ch ++ titleCase mName ++ "Params")) ∈
            out.schemeEntries) := by
  intro cmds
  induction cmds with
  | nil => intro acc out h mName cOpt hm; cases hm
  | cons c rest ih =>
    intro acc out h mName cOpt hm
    obtain ⟨hName, hOpt⟩ := c
    simp only [processCommands] at h
    split at h
    next e heq => simp at h
    next parameters heq1 =>
      split at h
      next e heq => simp at h
      next options heq2 =>
        split at h
        next e heq => simp at h
        next returns heq3 =>
          split at h
          next e heq => simp at h
          next tail heq4 =>
            simp only [Except.ok.injEq] at h
            subst h
            rcases List.mem_cons.mp hm with hhead | htail
            · obtain ⟨e1, e2⟩ := Prod.mk.injEq .. |>.mp hhead
              subst e1
              subst e2
              constructor
              · exact ⟨_, List.mem_append_left _ (List.mem_cons_self _ _)⟩
              · intro k hk
                simp only [List.mem_append, List.mem_cons, List.mem_map]
                exact Or.inl (Or.inr
                  ⟨k ++ titleCase mName ++ "Params", ⟨k, hk, rfl⟩, rfl⟩)
            · have hr := ih _ tail heq4 mName cOpt htail
              constructor
              · obtain ⟨sE, hsE⟩ := hr.1
                refine ⟨sE, ?_⟩
                simp only [List.mem_append]
                exact Or.inr hsE
              · intro k hk
                simp only [List.mem_append]
                exact Or.inr (hr.2 k hk)

end GC

namespace GC

/-- The validator entries of a channel entity are exactly those of its
commands loop. -/
theorem processEntity_entries (ctx : Ctx) (fuel : Nat)
    (inh : List (String × String)) (derived : List String) (name : String)
    (ext : Option String) (init : Option PropList)
    (commands : List (String × Option Command))
    (events : List (String × Option Event)) (out : EntityOut)
    (h : processEntity ctx fuel inh derived name
        (.interface ext init commands events) = .ok out) :
    ∃ acc cmdOut,
      processCommands ctx fuel inh derived name commands acc = .ok cmdOut ∧
      out.schemeEntries = cmdOut.schemeEntries := by
  simp only [processEntity] at h
  split at h
  next e heq => simp at h
  next initR heq1 =>
    split at h
    next e heq => simp at h
    next evOut heq2 =>
      split at h
      next e heq => simp at h
      next cmdOut heq3 =>
        simp only [Except.ok.injEq] at h
        subst h
        exact ⟨evOut.tsTypes, cmdOut, heq3, rfl⟩

/-- The validator entries of every listed entity are contained in those of
the main loop. -/
theorem compileEntities_entries (ctx : Ctx) (fuel : Nat)
    (inh : List (String × String)) (p : Protocol) :
    ∀ l eo, compileEntities ctx fuel inh p l = .ok eo →
      ∀ name item, (name, item) ∈ l →
        ∃ o, processEntity ctx fuel inh (derivedClasses p name) name item =
            .ok o ∧
          ∀ x, x ∈ o.schemeEntries → x ∈ eo.schemeEntries := by
  intro l
  induction l with
  | nil => intro eo h name item hm; cases hm
  | cons y rest ih =>
    intro eo h name item hm
    obtain ⟨yn, yi⟩ := y
    simp only [compileEntities] at h
    split at h
    next e heq => simp at h
    next o heq1 =>
      split at h
      next e heq => simp at h
      next os heq2 =>
        simp only [Except.ok.injEq] at h
        subst h
        rcases List.mem_cons.mp hm with hhead | htail
        · obtain ⟨e1, e2⟩ := Prod.mk.injEq .. |>.mp hhead
          subst e1
          subst e2
          exact ⟨o, heq1, fun x hx => List.mem_append_left _ hx⟩
        · obtain ⟨o2, ho2, hsub⟩ := ih os heq2 name item htail
          exact ⟨o2, ho2, fun x hx => List.mem_append_right _ (hsub x hx)⟩

/-- The validator registry of a successful run is that of the main loop. -/
theorem compile_entries (fuel : Nat) (p : Protocol) (art : Artifacts)
    (h : compile fuel p = .ok art) :
    ∃ eo, compileEntities (ctxOf p) fuel (inheritsOf p) p p = .ok eo ∧
      art.schemeEntries = eo.schemeEntries := by
  simp only [compile] at h
  split at h
  next e heq => simp at h
  next eo heq1 =>
    simp only [Except.ok.injEq] at h
    subst h
    exact ⟨eo, heq1, rfl⟩

/-- C4: for every channel `B` declared with `extends A` and every command `m`
declared directly on `A`, the validator registry contains an entry
`B + TitleCase(m) + "Params"` whose validator expression is the lazy
named-type lookup `tType` of `A + TitleCase(m) + "Params"`, and the registry
also contains an entry under that target name — so validating under the
derived name of `B` resolves, by name at check time, to the parameter
validator of `A`. -/
theorem c4_inherited_command_alias (fuel : Nat) (p : Protocol)
    (art : Artifacts) (A B mName : String) (ext : Option String)
    (init : Option PropList) (cmds : List (String × Option Command))
    (evs : List (String × Option Event)) (cOpt : Option Command)
    (h : compile fuel p = .ok art)
    (hB : mget (inheritsOf p) B = some A)
    (hA : (A, Item.interface ext init cmds evs) ∈ p)
    (hm : (mName, cOpt) ∈ cmds) :
    (B ++ titleCase mName ++ "Params",
      SchemeExpr.tType (A ++ titleCase mName ++ "Params")) ∈
      art.schemeEntries ∧
    ∃ sE, (A ++ titleCase mName ++ "Params", sE) ∈ art.schemeEntries := by
  obtain ⟨eo, heo, hart⟩ := compile_entries fuel p art h
  obtain ⟨o, ho, hsub⟩ := compileEntities_entries (ctxOf p) fuel
    (inheritsOf p) p p eo heo A (.interface ext init cmds evs) hA
  obtain ⟨acc, cmdOut, hcmd, hoeq⟩ := processEntity_entries (ctxOf p) fuel
    (inheritsOf p) (derivedClasses p A) A ext init cmds evs o ho
  have hmem := processCommands_entries (ctxOf p) fuel (inheritsOf p)
    (derivedClasses p A) A cmds acc cmdOut hcmd mName cOpt hm
  have hBmem := mem_aliasChildren (inheritsOf p) B A hB
  constructor
  · rw [hart]
    apply hsub
    rw [hoeq]
    exact hmem.2 B hBmem
  · obtain ⟨sE, hsE⟩ := hmem.1
    refine ⟨sE, ?_⟩
    rw [hart]
    apply hsub
    rw [hoeq]
    exact hsE

/-- C4 witness: in `pAB` the registry holds `BFooParams` as a lazy alias to
`AFooParams`, and `AFooParams` itself. -/
theorem c4_witness :
    compile 9 pAB = .ok artAB ∧
    ("BFooParams", SchemeExpr.tType "AFooParams") ∈ artAB.schemeEntries ∧
    ∃ sE, ("AFooParams", sE) ∈ artAB.schemeEntries := by
  have hr := c4_inherited_command_alias 9 pAB artAB "A" "B" "foo" none none
    [("foo", some ⟨some [("x", .str "string")], none, none⟩)] []
    (some ⟨some [("x", .str "string")], none, none⟩) rfl rfl
    (by simp [pAB]) (by simp)
  exact ⟨rfl, hr.1, hr.2⟩

end GC

namespace GC

/-- `properties` is the mixin-expanded entry list, filtered to the optional
entries when `onlyOptional` is set, rendered entrywise: the `ts` line and the
(possibly `tOptional`-wrapped) validator entry. -/
theorem visitProps_resolvedEntries (ctx : Ctx) :
    ∀ fuel props indent onlyOptional,
      visitProps ctx fuel indent onlyOptional props =
        (resolvedEntries ctx fuel indent props).map
          (fun es => PropsResult.mk
            ((selectOptional onlyOptional es).map (entryTsLine indent))
            ((selectOptional onlyOptional es).map entryScheme)) := by
  intro fuel
  induction fuel with
  | zero => intro props indent oo; rfl
  | succ f ih =>
    intro props indent oo
    cases props with
    | nil => simp [visitProps, resolvedEntries, selectOptional, Except.map]
    | cons e rest =>
      obtain ⟨name, value⟩ := e
      by_cases hmx : strStartsWith name "$mixin" = true
      · simp only [visitProps, resolvedEntries, hmx, if_true]
        cases hlk : mixLookup ctx value with
        | none => simp [Except.map]
        | some mprops =>
          simp only [ih mprops indent oo, ih rest indent oo]
          cases hres1 : resolvedEntries ctx f indent mprops with
          | error e1 => simp [Except.map]
          | ok es1 =>
            cases hres2 : resolvedEntries ctx f indent rest with
            | error e2 => simp [Except.map]
            | ok es2 =>
              cases oo <;>
                simp [Except.map, selectOptional, List.filter_append]
      · simp only [visitProps, resolvedEntries, hmx, if_false]
        simp only [ih rest indent oo]
        cases hin : inlineType ctx f value indent false with
        | error e1 => simp [Except.map]
        | ok inner =>
          cases hres2 : resolvedEntries ctx f indent rest with
          | error e2 => simp [Except.map]
          | ok es2 =>
            by_cases hopt : inner.optional = true
            · cases oo <;>
                simp [Except.map, selectOptional, entryTsLine, entryScheme,
                  hopt]
            · cases oo <;>
                simp [Except.map, selectOptional, entryTsLine, entryScheme,
                  hopt]

end GC

namespace GC

/-- C6: when the mixin-expanded, resolved entries of a parameter property list
are `es`, the derived Options rendering (`onlyOptional = true`) keeps exactly
the individually optional entries — same name, same rendered type text, and
the same relative order (the kept entries form a sublist) — while the full
Params rendering keeps every entry; no required entry survives the projection
and no entry type is altered by it. -/
theorem c6_options_projection (ctx : Ctx) (fuel : Nat) (indent : String)
    (props : PropList) (es : List (String × InlineResult))
    (h : resolvedEntries ctx fuel indent props = .ok es) :
    visitProps ctx fuel indent true props =
      .ok ⟨(es.filter (fun e => e.2.optional)).map (entryTsLine indent),
           (es.filter (fun e => e.2.optional)).map entryScheme⟩ ∧
    visitProps ctx fuel indent false props =
      .ok ⟨es.map (entryTsLine indent), es.map entryScheme⟩ ∧
    (es.filter (fun e => e.2.optional)).Sublist es := by
  refine ⟨?_, ?_, List.filter_sublist es⟩
  · rw [visitProps_resolvedEntries ctx fuel props indent true, h]
    simp [Except.map, selectOptional]
  · rw [visitProps_resolvedEntries ctx fuel props indent false, h]
    simp [Except.map, selectOptional]

/-- C6 witness: a two-entry list with one optional entry projects to exactly
that entry, with its type text unchanged. -/
theorem c6_witness :
    resolvedEntries ⟨[], []⟩ 5 ""
        [("a", .str "string?"), ("b", .str "number")] =
      .ok [("a", ⟨"string", .tString, true⟩),
           ("b", ⟨"number", .tNumber, false⟩)] ∧
    visitProps ⟨[], []⟩ 5 "" true
        [("a", .str "string?"), ("b", .str "number")] =
      .ok ⟨["a?: string,"], [("a", .tOptional .tString)]⟩ ∧
    visitProps ⟨[], []⟩ 5 "" false
        [("a", .str "string?"), ("b", .str "number")] =
      .ok ⟨["a?: string,", "b: number,"],
           [("a", .tOptional .tString), ("b", .tNumber)]⟩ := by
  have hr := c6_options_projection ⟨[], []⟩ 5 ""
    [("a", .str "string?"), ("b", .str "number")]
    [("a", ⟨"string", .tString, true⟩), ("b", ⟨"number", .tNumber, false⟩)]
    rfl
  exact ⟨rfl, hr.1.trans (by rfl), hr.2.1.trans (by rfl)⟩

end GC

namespace GC

/-- Success of an `Except` is existence of an `ok` value. -/
theorem exOk_iff {ε α : Type} (e : Except ε α) :
    exOk e = true ↔ ∃ a, e = .ok a := by
  cases e <;> simp [exOk]

/-- A well-formed type expression resolves and a well-formed property list
renders, at the same fuel. -/
theorem wf_isOk (ctx : Ctx) :
    ∀ fuel,
      (∀ t indent we, wfType ctx fuel t = true →
        exOk (inlineType ctx fuel t indent we) = true) ∧
      (∀ ps indent oo, wfProps ctx fuel ps = true →
        exOk (visitProps ctx fuel indent oo ps) = true) := by
  intro fuel
  induction fuel with
  | zero =>
    constructor <;> intro x _ _ h <;> simp [wfType, wfProps] at h
  | succ f ih =>
    constructor
    · intro t indent we h
      cases t with
      | str s =>
        simp only [inlineType]
        repeat' split
        all_goals rfl
      | arrayT tag items =>
        simp only [wfType] at h
        obtain ⟨inner, hin⟩ := (exOk_iff _).mp (ih.1 items indent true h)
        simp [inlineType, hin, exOk]
      | enumT tag literals => simp [inlineType, exOk]
      | objectT tag props =>
        simp only [wfType] at h
        obtain ⟨r, hr⟩ :=
          (exOk_iff _).mp (ih.2 props (indent ++ "  ") false h)
        simp [inlineType, hr, exOk]
      | badT => simp [wfType] at h
    · intro ps indent oo h
      cases ps with
      | nil => simp [visitProps, exOk]
      | cons e rest =>
        obtain ⟨name, value⟩ := e
        simp only [wfProps] at h
        by_cases hmx : strStartsWith name "$mixin" = true
        · rw [if_pos hmx] at h
          cases hlk : mixLookup ctx value with
          | none => rw [hlk] at h; cases h
          | some mprops =>
            rw [hlk] at h
            rw [Bool.and_eq_true] at h
            obtain ⟨r1, hr1⟩ := (exOk_iff _).mp (ih.2 mprops indent oo h.1)
            obtain ⟨r2, hr2⟩ := (exOk_iff _).mp (ih.2 rest indent oo h.2)
            simp [visitProps, hmx, hlk, hr1, hr2, exOk]
        · rw [if_neg hmx] at h
          rw [Bool.and_eq_true] at h
          obtain ⟨r1, hr1⟩ := (exOk_iff _).mp (ih.1 value indent false h.1)
          obtain ⟨r2, hr2⟩ := (exOk_iff _).mp (ih.2 rest indent oo h.2)
          simp only [visitProps, hmx, if_false, hr1, hr2]
          by_cases hc : oo = true ∧ r1.optional = false
          · simp [hc, exOk]
          · simp [hc, exOk]

/-- A well-formed property list makes `objectType` succeed. -/
theorem wfObject_isOk (ctx : Ctx) (fuel : Nat) (props : PropList)
    (indent : String) (oo : Bool) (h : wfObject ctx fuel props = true) :
    exOk (objectType ctx fuel props indent oo) = true := by
  unfold wfObject at h
  rw [Bool.or_eq_true] at h
  by_cases he : props.isEmpty = true
  · simp [objectType, he, exOk]
  · have hwf : wfProps ctx fuel props = true := by
      rcases h with h | h
      · exact absurd h he
      · exact h
    obtain ⟨r, hr⟩ :=
      (exOk_iff _).mp ((wf_isOk ctx fuel).2 props (indent ++ "  ") oo hwf)
    simp [objectType, he, hr, exOk]

/-- Well-formed event parameter lists make the events loop succeed. -/
theorem wf_processEvents (ctx : Ctx) (fuel : Nat) (ch : String) :
    ∀ events acc,
      events.all (fun e =>
        wfObject ctx fuel ((e.2.getD ⟨none⟩).parameters.getD [])) = true →
      exOk (processEvents ctx fuel ch events acc) = true := by
  intro events
  induction events with
  | nil => intro acc h; rfl
  | cons e rest ih =>
    intro acc h
    obtain ⟨en, evOpt⟩ := e
    simp only [List.all_cons, Bool.and_eq_true] at h
    obtain ⟨r, hr⟩ := (exOk_iff _).mp (wfObject_isOk ctx fuel _ "" false h.1)
    obtain ⟨r2, hr2⟩ := (exOk_iff _).mp
      (ih (msetJS acc (ch ++ titleCase en ++ "Event") r.1) h.2)
    simp [processEvents, hr, hr2, exOk]

/-- Well-formed command parameter/result lists make the commands loop
succeed. -/
theorem wf_processCommands (ctx : Ctx) (fuel : Nat)
    (inh : List (String × String)) (derived : List String) (ch : String) :
    ∀ cmds acc,
      cmds.all (fun c => wfCommand ctx fuel (c.2.getD Command.empty)) = true →
      exOk (processCommands ctx fuel inh derived ch cmds acc) = true := by
  intro cmds
  induction cmds with
  | nil => intro acc h; rfl
  | cons c rest ih =>
    intro acc h
    obtain ⟨mName, mOpt⟩ := c
    simp only [List.all_cons, Bool.and_eq_true] at h
    have hcmd := h.1
    unfold wfCommand at hcmd
    rw [Bool.and_eq_true] at hcmd
    obtain ⟨rp, hrp⟩ :=
      (exOk_iff _).mp (wfObject_isOk ctx fuel _ "" false hcmd.1)
    obtain ⟨ro, hro⟩ :=
      (exOk_iff _).mp (wfObject_isOk ctx fuel _ "" true hcmd.1)
    obtain ⟨rr, hrr⟩ :=
      (exOk_iff _).mp (wfObject_isOk ctx fuel _ "" false hcmd.2)
    obtain ⟨rt, hrt⟩ := (exOk_iff _).mp (ih
      (msetJS (msetJS (msetJS acc (ch ++ titleCase mName ++ "Params") rp.1)
          (ch ++ titleCase mName ++ "Options") ro.1)
        (ch ++ titleCase mName ++ "Result")
        (if (mOpt.getD Command.empty).returns.isSome = true then rr.1
         else "void")) h.2)
    simp [processCommands, hrp, hro, hrr, hrt, exOk]

/-- A well-formed entity is processed successfully. -/
theorem wf_processEntity (ctx : Ctx) (fuel : Nat)
    (inh : List (String × String)) (derived : List String) (name : String)
    (item : Item) (h : wfItem ctx fuel item = true) :
    exOk (processEntity ctx fuel inh derived name item) = true := by
  cases item with
  | interface ext init commands events =>
    simp only [wfItem, Bool.and_eq_true] at h
    obtain ⟨⟨hinit, hev⟩, hcmds⟩ := h
    obtain ⟨ri, hri⟩ :=
      (exOk_iff _).mp (wfObject_isOk ctx fuel _ "" false hinit)
    obtain ⟨re, hre⟩ :=
      (exOk_iff _).mp (wf_processEvents ctx fuel name events [] hev)
    obtain ⟨rc, hrc⟩ := (exOk_iff _).mp
      (wf_processCommands ctx fuel inh derived name commands re.tsTypes hcmds)
    simp [processEntity, hri, hre, hrc, exOk]
  | object props =>
    simp only [wfItem] at h
    obtain ⟨r, hr⟩ := (exOk_iff _).mp (wfObject_isOk ctx fuel _ "" false h)
    simp [processEntity, hr, exOk]
  | enum literals => rfl
  | mixin props => rfl
  | other => rfl

/-- A well-formed document makes the whole main loop succeed. -/
theorem wf_compileEntities (ctx : Ctx) (fuel : Nat)
    (inh : List (String × String)) (p : Protocol) :
    ∀ l, l.all (fun x => wfItem ctx fuel x.2) = true →
      exOk (compileEntities ctx fuel inh p l) = true := by
  intro l
  induction l with
  | nil => intro h; rfl
  | cons x rest ih =>
    intro h
    obtain ⟨name, item⟩ := x
    simp only [List.all_cons, Bool.and_eq_true] at h
    obtain ⟨o, ho⟩ := (exOk_iff _).mp
      (wf_processEntity ctx fuel inh (derivedClasses p name) name item h.1)
    obtain ⟨os, hos⟩ := (exOk_iff _).mp (ih h.2)
    simp [compileEntities, ho, hos, exOk]

/-- A well-formed document compiles. -/
theorem wf_compile (fuel : Nat) (p : Protocol)
    (h : wfProtocol fuel p = true) : exOk (compile fuel p) = true := by
  unfold wfProtocol at h
  obtain ⟨eo, heo⟩ := (exOk_iff _).mp
    (wf_compileEntities (ctxOf p) fuel (inheritsOf p) p p h)
  simp [compile, heo, exOk]

end GC

namespace GC

/-- C1 (amended): a mixin splice naming an absent mixin aborts the run with
the unknown-mixin failure (and hence no artifact); but a *named type
reference* to an absent entity does NOT abort the run — `inlineType` emits the
late-bound `tType` lookup for it, deferring the failure to validation time —
and whenever every referenced mixin is present and every shape is a
recognized variant (within the fuel bound), compilation succeeds. -/
theorem c1_reference_soundness_amended :
    (∀ ctx fuel indent oo name value rest,
        strStartsWith name "$mixin" = true → mixLookup ctx value = none →
        visitProps ctx (fuel + 1) indent oo ((name, value) :: rest) =
          .error (.unknownMixin (mixName value))) ∧
    (∀ ctx fuel s indent we t opt,
        opt = strEndsWith s "?" → t = (if opt then strDropLast s else s) →
        t ≠ "binary" → t ≠ "json" →
        ¬(t = "string" ∨ t = "boolean" ∨ t = "number" ∨ t = "undefined") →
        ctx.channels.contains t = false → t ≠ "Channel" →
        inlineType ctx (fuel + 1) (.str s) indent we =
          .ok ⟨t, .tType t, opt⟩) ∧
    (∀ fuel p, wfProtocol fuel p = true → exOk (compile fuel p) = true) := by
  refine ⟨?_, ?_, wf_compile⟩
  · intro ctx fuel indent oo name value rest hmx hlk
    simp [visitProps, hmx, hlk]
  · intro ctx fuel s indent we t opt hopt ht h1 h2 h3 h4 h5
    subst hopt
    subst ht
    have hch : ¬(ctx.channels.contains
        (if strEndsWith s "?" = true then strDropLast s else s) = true) := by
      intro hc
      rw [h4] at hc
      cases hc
    simp only [inlineType]
    rw [if_neg h1, if_neg h2, if_neg h3, if_neg hch, if_neg h5]

end GC

namespace GC

/-- C1 witness: an absent mixin aborts the run on a concrete list, and the
concrete well-formed document `pWf` (whose every reference resolves)
compiles. -/
theorem c1_witness :
    visitProps ⟨[], []⟩ 3 "" false [("$mixinX", .str "Gone")] =
      .error (.unknownMixin "Gone") ∧
    wfProtocol 9 pWf = true ∧
    exOk (compile 9 pWf) = true :=
  ⟨c1_reference_soundness_amended.1 ⟨[], []⟩ 2 "" false "$mixinX"
     (.str "Gone") [] (by decide) rfl,
   by decide,
   c1_reference_soundness_amended.2.2 9 pWf (by decide)⟩

/-- C1 counterexample: `pUnknownRef` references the absent entity `Missing`,
yet compilation succeeds and produces artifacts — the reference is emitted as
the late-bound `tType` of `Missing` — contradicting the claim that a type
expression referencing an absent named entity makes the compilation run fail
and produce no artifact. -/
theorem c1_counterexample :
    exOk (compile 5 pUnknownRef) = true ∧
    (pUnknownRef.map (fun x => x.1)).contains "Missing" = false ∧
    ((compile 5 pUnknownRef).toOption.map (fun a => a.schemeEntries)) =
      some [("Obj", .tObject [("p", .tType "Missing")])] :=
  ⟨rfl, rfl, rfl⟩

end GC

namespace GC

/-- `objectType` always produces an object validator. -/
theorem objectType_tObject (ctx : Ctx) (fuel : Nat) (props : PropList)
    (indent : String) (oo : Bool) (r : String × SchemeExpr)
    (h : objectType ctx fuel props indent oo = .ok r) :
    ∃ es, r.2 = SchemeExpr.tObject es := by
  unfold objectType at h
  split at h
  next =>
    simp only [Except.ok.injEq] at h
    exact ⟨[], by rw [← h]⟩
  next =>
    split at h
    next e heq => simp at h
    next inner heq =>
      simp only [Except.ok.injEq] at h
      exact ⟨inner.scheme, by rw [← h]⟩

/-- C7 (amended): the registered Params validator accepts an absent value
exactly when the command declares no parameters at all — only then is the
scheme `tOptional(tObject({}))`; a command with declared parameters, even if
every one is individually optional, is registered with a plain `tObject`
validator, which rejects an absent value; and the emitted method signature
marks the `params` argument optional exactly when no parameters are
declared. -/
theorem c7_absent_params_amended :
    (∀ ctx fuel inh derived ch cmds acc out mName cOpt,
       processCommands ctx fuel inh derived ch cmds acc = .ok out →
       (mName, cOpt) ∈ cmds →
       ((cOpt.getD Command.empty).parameters = none →
         (ch ++ titleCase mName ++ "Params",
           SchemeExpr.tOptional (.tObject [])) ∈ out.schemeEntries ∧
         methodSigLine mName (ch ++ titleCase mName ++ "Params")
           (ch ++ titleCase mName ++ "Result") false ∈ out.chLines) ∧
       (∀ ps, (cOpt.getD Command.empty).parameters = some ps →
         (∃ es, (ch ++ titleCase mName ++ "Params",
            SchemeExpr.tObject es) ∈ out.schemeEntries) ∧
         methodSigLine mName (ch ++ titleCase mName ++ "Params")
           (ch ++ titleCase mName ++ "Result") true ∈ out.chLines)) ∧
    (∀ reg f x, validate reg (f + 1) (.tOptional x) .undefined = true) ∧
    (∀ reg f es, validate reg (f + 1) (.tObject es) .undefined = false) := by
  refine ⟨?_, fun reg f x => rfl, fun reg f es => rfl⟩
  intro ctx fuel inh derived ch cmds
  induction cmds with
  | nil => intro acc out mName cOpt h hm; cases hm
  | cons c rest ih =>
    intro acc out mName cOpt h hm
    obtain ⟨hName, hOpt⟩ := c
    simp only [processCommands] at h
    split at h
    next e heq => simp at h
    next parameters heq1 =>
      split at h
      next e heq => simp at h
      next options heq2 =>
        split at h
        next e heq => simp at h
        next returns heq3 =>
          split at h
          next e heq => simp at h
          next tail heq4 =>
            simp only [Except.ok.injEq] at h
            subst h
            rcases List.mem_cons.mp hm with hhead | htail
            · obtain ⟨e1, e2⟩ := Prod.mk.injEq .. |>.mp hhead
              subst e1
              subst e2
              constructor
              · intro hp
                constructor
                · simp only [List.mem_append, List.mem_cons]
                  refine Or.inl (Or.inl ?_)
                  simp [hp]
                · simp only [List.mem_cons]
                  refine Or.inl ?_
                  simp [hp]
              · intro ps hp
                constructor
                · obtain ⟨es, hes⟩ := objectType_tObject ctx fuel
                    ((cOpt.getD Command.empty).parameters.getD []) "" false
                    parameters heq1
                  refine ⟨es, ?_⟩
                  simp only [List.mem_append, List.mem_cons]
                  refine Or.inl (Or.inl ?_)
                  simp [hp, ← hes]
                · simp only [List.mem_cons]
                  refine Or.inl ?_
                  simp [hp]
            · have hr := ih _ tail mName cOpt heq4 htail
              constructor
              · intro hp
                have h2 := hr.1 hp
                constructor
                · simp only [List.mem_append]
                  exact Or.inr h2.1
                · simp only [List.mem_cons]
                  exact Or.inr h2.2
              · intro ps hp
                have h2 := hr.2 ps hp
                constructor
                · obtain ⟨es, hes⟩ := h2.1
                  refine ⟨es, ?_⟩
                  simp only [List.mem_append]
                  exact Or.inr hes
                · simp only [List.mem_cons]
                  exact Or.inr h2.2

/-- C7 counterexample: in `pOptParams` the command `foo` has no *required*
parameter property (its single property is optional), yet the registered
validator is a plain `tObject`, which rejects an absent value — contradicting
"accepts an absent parameters value whenever the command has no required
parameter properties". -/
theorem c7_counterexample :
    artOpt.schemeEntries =
      [("AFooParams", .tObject [("x", .tOptional .tString)])] ∧
    validate artOpt.schemeEntries 5
      (.tObject [("x", .tOptional .tString)]) .undefined = false ∧
    validate artOpt.schemeEntries 5 (.tType "AFooParams") .undefined = false :=
  ⟨rfl, rfl, rfl⟩

/-- C7 witness: a command declared with a null body registers the
absent-tolerant `tOptional(tObject({}))` validator and an optional `params?`
signature; the combinator facts at concrete inputs. -/
theorem c7_witness :
    (("ABarParams", SchemeExpr.tOptional (.tObject [])) ∈
      cmdOut7.schemeEntries ∧
     methodSigLine "bar" "ABarParams" "ABarResult" false ∈
      cmdOut7.chLines) ∧
    validate [] 1 (.tOptional (.tObject [])) .undefined = true ∧
    validate [] 1 (.tObject [("x", .tOptional .tString)]) .undefined = false :=
  ⟨(c7_absent_params_amended.1 ⟨[], []⟩ 5 [] [] "A" [("bar", none)] []
      cmdOut7 "bar" none rfl (by simp)).1 rfl,
   c7_absent_params_amended.2.1 [] 0 (.tObject []),
   c7_absent_params_amended.2.2 [] 0 [("x", .tOptional .tString)]⟩

end GC

namespace GC

/-- The fuel bound is always positive. -/
theorem needFuelType_pos (ctx : Ctx) (rank : String → Nat) (R : Nat)
    (t : TypeExpr) : 1 ≤ needFuelType ctx rank R t := by
  cases t <;> simp [needFuelType]

/-- The fuel bound is always positive. -/
theorem needFuelProps_pos (ctx : Ctx) (rank : String → Nat) (R : Nat)
    (ps : PropList) : 1 ≤ needFuelProps ctx rank R ps := by
  cases ps with
  | nil => simp [needFuelProps]
  | cons e rest =>
    obtain ⟨n, v⟩ := e
    simp only [needFuelProps]
    repeat' split
    all_goals omega

/-- A successful splice lookup is a mixin-map lookup of the splice name. -/
theorem mixLookup_mget (ctx : Ctx) (value : TypeExpr) (mprops : PropList)
    (h : mixLookup ctx value = some mprops) :
    mget ctx.mixins (mixName value) = some mprops := by
  cases value <;> simp [mixLookup, mixName] at h ⊢ <;> exact h

/-- Under a rank function that strictly descends across every mixin splice
(acyclicity), any fuel at least the computed bound never exhausts. -/
theorem no_fuelExhausted_of_rank (ctx : Ctx) (rank : String → Nat)
    (hacy : ∀ m mprops, mget ctx.mixins m = some mprops →
      ∀ m2 ∈ spliceNames mprops, rank m2 < rank m) :
    (∀ R t, (∀ m ∈ spliceNamesT t, rank m < R) →
      ∀ fuel, needFuelType ctx rank R t ≤ fuel →
      ∀ indent we, inlineType ctx fuel t indent we ≠ .error .fuelExhausted) ∧
    (∀ R ps, (∀ m ∈ spliceNames ps, rank m < R) →
      ∀ fuel, needFuelProps ctx rank R ps ≤ fuel →
      ∀ indent oo,
        visitProps ctx fuel indent oo ps ≠ .error .fuelExhausted) := by
  refine needFuelType.mutual_induct ctx rank
    (fun R t => (∀ m ∈ spliceNamesT t, rank m < R) →
      ∀ fuel, needFuelType ctx rank R t ≤ fuel →
      ∀ indent we, inlineType ctx fuel t indent we ≠ .error .fuelExhausted)
    (fun R ps => (∀ m ∈ spliceNames ps, rank m < R) →
      ∀ fuel, needFuelProps ctx rank R ps ≤ fuel →
      ∀ indent oo,
        visitProps ctx fuel indent oo ps ≠ .error .fuelExhausted)
    ?_ ?_ ?_ ?_ ?_ ?_ ?_ ?_ ?_ ?_
  · intro R s _ fuel hfuel indent we
    rw [needFuelType] at hfuel
    cases fuel with
    | zero => omega
    | succ f =>
      simp only [inlineType]
      repeat' split
      all_goals simp
  · intro R tag items ih hm fuel hfuel indent we
    rw [needFuelType] at hfuel
    cases fuel with
    | zero => omega
    | succ f =>
      have hin := ih (by simpa [spliceNamesT] using hm) f (by omega) indent true
      simp only [inlineType]
      cases hv : inlineType ctx f items indent true with
      | error e1 =>
        rw [hv] at hin
        simpa using hin
      | ok inner => simp
  · intro R tag literals _ fuel hfuel indent we
    rw [needFuelType] at hfuel
    cases fuel with
    | zero => omega
    | succ f => simp [inlineType]
  · intro R tag props ih hm fuel hfuel indent we
    rw [needFuelType] at hfuel
    cases fuel with
    | zero => omega
    | succ f =>
      have hin := ih (by simpa [spliceNamesT] using hm) f (by omega)
        (indent ++ "  ") false
      simp only [inlineType]
      cases hv : visitProps ctx f (indent ++ "  ") false props with
      | error e1 =>
        rw [hv] at hin
        simpa using hin
      | ok inner => simp
  · intro R _ fuel hfuel indent we
    rw [needFuelType] at hfuel
    cases fuel with
    | zero => omega
    | succ f => simp [inlineType]
  · intro R _ fuel hfuel indent oo
    rw [needFuelProps] at hfuel
    cases fuel with
    | zero => omega
    | succ f => simp [visitProps]
  · intro R name value rest hmx hlk ih hm fuel hfuel indent oo
    rw [needFuelProps] at hfuel
    simp only [hmx, if_true, hlk] at hfuel
    cases fuel with
    | zero => omega
    | succ f => simp [visitProps, hmx, hlk]
  · intro R name value rest hmx mprops hlk hlt ih1 ih2 hm fuel hfuel indent oo
    rw [needFuelProps] at hfuel
    simp only [hmx, if_true, hlk, dif_pos hlt] at hfuel
    cases fuel with
    | zero => omega
    | succ f =>
      have hm1 : ∀ m ∈ spliceNames mprops, rank m < rank (mixName value) :=
        hacy (mixName value) mprops (mixLookup_mget ctx value mprops hlk)
      have hm2 : ∀ m ∈ spliceNames rest, rank m < R := by
        intro m hmem
        exact hm m (by simp [spliceNames, hmx, hmem])
      have hin1 := ih1 hm1 f (by omega) indent oo
      have hin2 := ih2 hm2 f (by omega) indent oo
      simp only [visitProps, hmx, if_true, hlk]
      cases hv1 : visitProps ctx f indent oo mprops with
      | error e1 =>
        rw [hv1] at hin1
        simpa using hin1
      | ok r1 =>
        cases hv2 : visitProps ctx f indent oo rest with
        | error e2 =>
          rw [hv2] at hin2
          simpa using hin2
        | ok r2 => simp
  · intro R name value rest hmx mprops hlk hnlt ih hm fuel hfuel indent oo
    exfalso
    exact hnlt (hm (mixName value) (by simp [spliceNames, hmx]))
  · intro R name value rest hmx ih1 ih2 hm fuel hfuel indent oo
    cases fuel with
    | zero =>
      have hp := needFuelProps_pos ctx rank R ((name, value) :: rest)
      omega
    | succ f =>
      rw [needFuelProps, if_neg hmx] at hfuel
      have hmb := Nat.max_le.mp (show
        max (needFuelType ctx rank R value)
          (needFuelProps ctx rank R rest) ≤ f by omega)
      have hm1 : ∀ m ∈ spliceNamesT value, rank m < R := by
        intro m hmem
        exact hm m (by simp [spliceNames, hmx, hmem])
      have hm2 : ∀ m ∈ spliceNames rest, rank m < R := by
        intro m hmem
        exact hm m (by simp [spliceNames, hmx, hmem])
      have hin1 := ih1 hm1 f hmb.1 indent false
      have hin2 := ih2 hm2 f hmb.2 indent oo
      simp only [visitProps]
      rw [if_neg hmx]
      cases hv1 : inlineType ctx f value indent false with
      | error e1 =>
        rw [hv1] at hin1
        simpa using hin1
      | ok r1 =>
        cases hv2 : visitProps ctx f indent oo rest with
        | error e2 =>
          rw [hv2] at hin2
          simpa using hin2
        | ok r2 =>
          split
          all_goals try simp_all
          all_goals try split
          all_goals simp_all

end GC

namespace GC

/-- The rank of any element is below the folded rank bound. -/
theorem rank_lt_foldr (rank : String → Nat) :
    ∀ (l : List String) (m : String), m ∈ l →
      rank m < l.foldr (fun x acc => max (rank x + 1) acc) 0 := by
  intro l
  induction l with
  | nil => intro m hm; cases hm
  | cons x rest ih =>
    intro m hm
    rcases List.mem_cons.mp hm with h | h
    · subst h
      simp only [List.foldr_cons]
      have h2 := Nat.le_max_left (rank m + 1)
        (rest.foldr (fun x acc => max (rank x + 1) acc) 0)
      omega
    · have h1 := ih m h
      simp only [List.foldr_cons]
      have h2 := Nat.le_max_right (rank x + 1)
        (rest.foldr (fun x acc => max (rank x + 1) acc) 0)
      omega

/-- C9: resolving a property list expands every mixin splice by recursively
substituting the property list of the referenced mixin in place, preserving
relative order (the expansion equation); the expansion terminates for every
registry whose mixin-splice reference graph is acyclic — witnessed by a rank
function strictly descending across splices, some fuel bound suffices and is
never exhausted from there on; and no cycle detection is performed: a
self-splicing mixin exhausts every amount of fuel. -/
theorem c9_mixin_expansion_termination :
    (∀ ctx fuel indent name value rest mprops,
        strStartsWith name "$mixin" = true →
        mixLookup ctx value = some mprops →
        resolvedEntries ctx (fuel + 1) indent ((name, value) :: rest) =
          (match resolvedEntries ctx fuel indent mprops with
           | .error e => .error e
           | .ok expanded =>
             match resolvedEntries ctx fuel indent rest with
             | .error e => .error e
             | .ok tail => .ok (expanded ++ tail))) ∧
    (∀ (ctx : Ctx) (rank : String → Nat),
        (∀ m mprops, mget ctx.mixins m = some mprops →
          ∀ m2 ∈ spliceNames mprops, rank m2 < rank m) →
        ∀ ps indent oo, ∃ bound, ∀ fuel, bound ≤ fuel →
          visitProps ctx fuel indent oo ps ≠ .error .fuelExhausted) ∧
    (∀ fuel indent oo,
        visitProps cycCtx fuel indent oo [("$mixin", .str "M")] =
          .error .fuelExhausted) := by
  refine ⟨?_, ?_, ?_⟩
  · intro ctx fuel indent name value rest mprops hmx hlk
    simp [resolvedEntries, hmx, hlk]
  · intro ctx rank hacy ps indent oo
    refine ⟨needFuelProps ctx rank
      ((spliceNames ps).foldr (fun m acc => max (rank m + 1) acc) 0) ps, ?_⟩
    intro fuel hfuel
    exact (no_fuelExhausted_of_rank ctx rank hacy).2 _ ps
      (fun m hmem => rank_lt_foldr rank (spliceNames ps) m hmem) fuel hfuel
      indent oo
  · intro fuel
    induction fuel with
    | zero => intro indent oo; rfl
    | succ f ih =>
      intro indent oo
      have h1 : strStartsWith "$mixin" "$mixin" = true := by decide
      have h2 : mixLookup cycCtx (.str "M") =
          some [("$mixin", .str "M")] := rfl
      simp [visitProps, h1, h2, ih]

/-- C9 witness: on the acyclic one-mixin registry a sufficient fuel bound
exists, and the self-splicing registry exhausts a concrete fuel of 5. -/
theorem c9_witness :
    (∃ bound, ∀ fuel, bound ≤ fuel →
      visitProps acyCtx fuel "" false [("$mixin1", .str "M1")] ≠
        .error .fuelExhausted) ∧
    visitProps cycCtx 5 "" false [("$mixin", .str "M")] =
      .error .fuelExhausted := by
  constructor
  · refine c9_mixin_expansion_termination.2.1 acyCtx (fun _ => 0) ?_
      [("$mixin1", .str "M1")] "" false
    intro m mprops hmg m2 hm2
    by_cases hm : ("M1" : String) = m
    · have hp : mprops = [("a", TypeExpr.str "string")] := by
        simp [acyCtx, mget, hm] at hmg
        exact hmg.symm
      rw [hp] at hm2
      simp [spliceNames, spliceNamesT] at hm2
      exact absurd hm2.1 (by decide)
    · simp [acyCtx, mget, hm] at hmg
  · exact c9_mixin_expansion_termination.2.2 5 "" false

end GC
